import Mathlib

/-!
Shallow embedding of the gpt-turbo conversation engine (the
`Conversation` class), verified against its natural-language
specification.  External collaborators — the tokenizer, the per-role
pricing, the moderation client and the chat-completion client — are
kept abstract as an environment record.
-/

/-- Message role (`"system" | "user" | "assistant"`). -/
inductive Role where
  | system
  | user
  | assistant
  deriving DecidableEq, Repr

/-- Moderation policy of a conversation config (`off | lenient | strict`). -/
inductive ModerationPolicy where
  | off
  | lenient
  | strict
  deriving DecidableEq, Repr

/-- A chat message.  Modelled from the spec: the `Message` class itself is
not among the provided sources; per spec §3 it owns an opaque unique `id`
(modelled as a natural drawn from the conversation's fresh-id counter),
a `role` and mutable `content`.  Its `size`/`cost` are pure functions of
the content, supplied by the environment. -/
structure Message where
  id : Nat
  role : Role
  content : String
  deriving DecidableEq, Repr

/-- The conversation-config fields the core logic branches on.  Modelled
from the spec: `ConversationConfig` is not among the provided sources;
per spec §3 it carries `context` (system-message text, possibly empty),
a moderation policy, a default streaming preference and a dry-run flag. -/
structure Config where
  context : String
  moderation : ModerationPolicy
  stream : Bool
  dry : Bool
  deriving DecidableEq, Repr

/-- Listener-notification log entries: one entry per
`notifyMessageAdded` / `notifyMessageRemoved` firing, in order. -/
inductive Event where
  | added (id : Nat)
  | removed (id : Nat)
  deriving DecidableEq, Repr

/-- External collaborators, kept abstract: `sizeFn` is the tokenizer
(`getMessageSize`), `costFn` the per-role pricing behind `Message.cost`,
`moderate` the moderation client, and `completion` the chat-completion
client (`Except.error` models a transport failure). -/
structure Env where
  sizeFn : String → Nat
  costFn : Role → String → Nat
  moderate : String → List String
  completion : List (Role × String) → Except Unit String

/-- The `Conversation` state: ordered history, current config, cumulative
counters, the fresh-id source, the ids of messages carrying a live
one-shot streaming-stop subscription, and the notification log. -/
structure Conversation where
  config : Config
  messages : List Message
  cumulativeSize : Nat
  cumulativeCost : Nat
  nextId : Nat
  pending : List Nat
  events : List Event
  deriving DecidableEq, Repr

/-- Error taxonomy (spec §7).  `MessageRoleException` is
`adjacentRoleViolation`, `ModerationException` is `moderationViolation`. -/
inductive ConvError where
  | emptyUserContent
  | moderationViolation (flags : List String)
  | adjacentRoleViolation
  | messageNotFound
  | noPriorUserMessage
  | transportError
  deriving DecidableEq, Repr

/-- JS `String#trim`: strip leading and trailing whitespace. -/
def trimString (s : String) : String :=
  ⟨((s.data.dropWhile Char.isWhitespace).reverse.dropWhile
      Char.isWhitespace).reverse⟩

/-- `Conversation.getSize`: left fold of the per-message token sizes. -/
def convSize (env : Env) (c : Conversation) : Nat :=
  c.messages.foldl (fun acc m => acc + env.sizeFn m.content) 0

/-- `Conversation.getCost`: left fold of the per-message costs. -/
def convCost (env : Env) (c : Conversation) : Nat :=
  c.messages.foldl (fun acc m => acc + env.costFn m.role m.content) 0

/-- `Conversation.addMessage` — the single admission choke point.  An
`Except.error` models a thrown exception; in the source every `throw`
happens before any state mutation, so an error leaves the conversation
untouched. -/
def addMessageE (env : Env) (c : Conversation) (m : Message) :
    Except ConvError (Conversation × Message) :=
  let m' : Message := { m with content := trimString m.content }
  if m'.content = "" ∧ m'.role = Role.user then
    Except.error ConvError.emptyUserContent
  else if c.config.moderation ≠ ModerationPolicy.off ∧
      c.config.moderation = ModerationPolicy.strict ∧
      env.moderate m'.content ≠ [] then
    Except.error (ConvError.moderationViolation (env.moderate m'.content))
  else if m'.role = Role.system then
    let c1 : Conversation :=
      { c with config := { c.config with context := m'.content } }
    if m'.content ≠ "" then
      match c1.messages with
      | [] =>
        Except.ok ({ c1 with
          messages := [m'],
          events := c1.events ++ [Event.added m'.id] }, m')
      | m0 :: rest =>
        if m0.role = Role.system then
          Except.ok ({ c1 with
            messages := m' :: rest,
            events := c1.events ++ [Event.added m'.id] }, m')
        else
          Except.ok ({ c1 with
            messages := m' :: m0 :: rest,
            events := c1.events ++ [Event.added m'.id] }, m')
    else
      match c1.messages with
      | [] =>
        Except.ok ({ c1 with
          events := c1.events ++ [Event.added m'.id] }, m')
      | m0 :: rest =>
        if m0.role = Role.system then
          Except.ok ({ c1 with
            messages := rest,
            events := c1.events ++ [Event.added m'.id] }, m')
        else
          Except.ok ({ c1 with
            events := c1.events ++ [Event.added m'.id] }, m')
  else
    if (c.messages.getLast?).map Message.role = some m'.role then
      Except.error ConvError.adjacentRoleViolation
    else
      Except.ok ({ c with
        messages := c.messages ++ [m'],
        events := c.events ++ [Event.added m'.id] }, m')

/-- Fresh-`Message` creation: `new Message(role, content, model)` with
the uuid modelled by the conversation's `nextId` counter. -/
def newMessage (c : Conversation) (r : Role) (content : String) :
    Conversation × Message :=
  ({ c with nextId := c.nextId + 1 }, ⟨c.nextId, r, content⟩)

/-- `Conversation.addUserMessage`. -/
def addUserMessageE (env : Env) (c : Conversation) (s : String) :
    Except ConvError (Conversation × Message) :=
  let p := newMessage c Role.user s
  addMessageE env p.1 p.2

/-- `Conversation.addAssistantMessage`. -/
def addAssistantMessageE (env : Env) (c : Conversation) (s : String) :
    Except ConvError (Conversation × Message) :=
  let p := newMessage c Role.assistant s
  addMessageE env p.1 p.2

/-- `Conversation.setContext` / `addSystemMessage`.  The source never
awaits the returned promise, so a rejection is swallowed: the state is
whatever stood when the exception was thrown (no mutation). -/
def setContext (env : Env) (c : Conversation) (ctx : String) :
    Conversation :=
  let p := newMessage c Role.system ctx
  match addMessageE env p.1 p.2 with
  | Except.ok r => r.1
  | Except.error _ => p.1

/-- `Conversation.clearMessages`: reset the history, then re-admit the
config's context as a system message. -/
def clearMessages (env : Env) (c : Conversation) : Conversation :=
  setContext env { c with messages := [] } c.config.context

/-- `new Conversation(config)`: store the config, then `clearMessages()`. -/
def Conversation.create (env : Env) (cfg : Config) : Conversation :=
  clearMessages env
    { config := cfg, messages := [], cumulativeSize := 0,
      cumulativeCost := 0, nextId := 0, pending := [], events := [] }

/-- `Conversation.removeMessage`: silently returns when the id is
absent; otherwise filters the message out and notifies removal
listeners. -/
def removeMessage (c : Conversation) (id : Nat) : Conversation :=
  match c.messages.find? (fun m => m.id == id) with
  | none => c
  | some rm =>
    { c with
      messages := c.messages.filter (fun m => m.id != id),
      events := c.events ++ [Event.removed rm.id] }

/-- `Conversation.handleStreamedResponse`: create an empty assistant
message, register the one-shot streaming-stop subscription, and return
the message immediately.  The asynchronous delivery of the (dry-echo or
live) stream is modelled by the separate `fireStreamingStop` transition
below; a transport failure of the live call is swallowed by the
un-awaited `.then` chain, so this step itself never raises. -/
def handleStreamedResponse (c : Conversation) : Conversation × Message :=
  let p := newMessage c Role.assistant ""
  ({ p.1 with pending := p.1.pending ++ [p.2.id] }, p.2)

/-- `messages[messages.length - 1]?.content`, defaulting to the empty
string (the source's `?? null` degenerate case can only occur on an
empty history). -/
def lastContent (c : Conversation) : String :=
  match c.messages.getLast? with
  | some m => m.content
  | none => ""

/-- `Conversation.handleNonStreamedResponse`: dry mode echoes the last
message's content, live mode awaits the completion client; either way
the cumulative counters are bumped by the current history size/cost
plus the new message's own size/cost before the message is returned.
An error carries the state at throw time. -/
def handleNonStreamedResponse (env : Env) (c : Conversation) :
    Except (ConvError × Conversation) (Conversation × Message) :=
  let p := newMessage c Role.assistant ""
  let c1 := p.1
  if c1.config.dry then
    let m : Message := { p.2 with content := lastContent c1 }
    Except.ok ({ c1 with
      cumulativeSize :=
        c1.cumulativeSize + convSize env c1 + env.sizeFn m.content,
      cumulativeCost :=
        c1.cumulativeCost + convCost env c1 +
          env.costFn Role.assistant m.content }, m)
  else
    match env.completion (c1.messages.map fun m => (m.role, m.content)) with
    | Except.error _ => Except.error (ConvError.transportError, c1)
    | Except.ok content =>
      let m : Message := { p.2 with content := content }
      Except.ok ({ c1 with
        cumulativeSize :=
          c1.cumulativeSize + convSize env c1 + env.sizeFn m.content,
        cumulativeCost :=
          c1.cumulativeCost + convCost env c1 +
            env.costFn Role.assistant m.content }, m)

/-- `Conversation.getChatCompletionResponse`: branch on the effective
stream flag (per-call override, else config default). -/
def getChatCompletionResponse (env : Env) (c : Conversation)
    (optStream : Option Bool) :
    Except (ConvError × Conversation) (Conversation × Message) :=
  if optStream.getD c.config.stream then
    Except.ok (handleStreamedResponse c)
  else
    handleNonStreamedResponse env c

/-- `Conversation.getAssistantResponse`: request a completion, then
admit it through `addMessage`. -/
def getAssistantResponse (env : Env) (c : Conversation)
    (optStream : Option Bool) :
    Except (ConvError × Conversation) (Conversation × Message) :=
  match getChatCompletionResponse env c optStream with
  | Except.error e => Except.error e
  | Except.ok (c1, completion) =>
    match addMessageE env c1 completion with
    | Except.error e => Except.error (e, c1)
    | Except.ok r => Except.ok r

/-- `Conversation.prompt`: admit the user message, request a response;
on any failure of the response step, remove the just-admitted user
message before re-raising. -/
def prompt (env : Env) (c : Conversation) (text : String)
    (optStream : Option Bool) :
    Except (ConvError × Conversation) (Conversation × Message) :=
  match addUserMessageE env c text with
  | Except.error e => Except.error (e, c)
  | Except.ok (c1, userMsg) =>
    match getAssistantResponse env c1 optStream with
    | Except.ok r => Except.ok r
    | Except.error (e, c2) => Except.error (e, removeMessage c2 userMsg.id)

/-- The in-place edit of the branch-point message: overwrite its
content when an (effective) new prompt is present. -/
def editedHistory (msgs : List Message) (prevIndex : Nat)
    (prevMsg : Message) (edit : Option String) : List Message :=
  match edit with
  | some np => msgs.set prevIndex { prevMsg with content := np }
  | none => msgs

/-- JS truthiness of the `newPrompt` argument: the in-place overwrite
(`if (newPrompt)`) fires only for a present, non-empty string. -/
def effectiveEdit (newPrompt : Option String) : Option String :=
  match newPrompt with
  | some np => if np = "" then none else some np
  | none => none

/-- `Conversation.reprompt`, after JS truthiness of `newPrompt` has been
resolved: `edit = some np` exactly when `newPrompt` was a non-empty
string.  The two `none` fallbacks on the index lookups are unreachable
(`findIdx?` and the guard keep the indices in range). -/
def repromptCore (env : Env) (c : Conversation) (fromId : Nat)
    (edit : Option String) (optStream : Option Bool) :
    Except (ConvError × Conversation) (Conversation × Message) :=
  match c.messages.findIdx? (fun m => m.id == fromId) with
  | none => Except.error (ConvError.messageNotFound, c)
  | some fromIndex =>
    match c.messages[fromIndex]? with
    | none => Except.error (ConvError.messageNotFound, c)
    | some fromMsg =>
      if fromMsg.role ≠ Role.user ∧ fromIndex = 0 then
        Except.error (ConvError.noPriorUserMessage, c)
      else
        let prevIndex :=
          if fromMsg.role = Role.user then fromIndex else fromIndex - 1
        match c.messages[prevIndex]? with
        | none => Except.error (ConvError.noPriorUserMessage, c)
        | some prevMsg =>
          let msgs1 := editedHistory c.messages prevIndex prevMsg edit
          let c1 := { c with messages := msgs1 }
          let c2 := (msgs1.drop (prevIndex + 1)).foldl
            (fun acc m => removeMessage acc m.id) c1
          match getAssistantResponse env c2 optStream with
          | Except.ok r => Except.ok r
          | Except.error (e, c3) =>
            Except.error (e, removeMessage c3 prevMsg.id)

/-- `Conversation.reprompt`. -/
def reprompt (env : Env) (c : Conversation) (fromId : Nat)
    (newPrompt : Option String) (optStream : Option Bool) :
    Except (ConvError × Conversation) (Conversation × Message) :=
  repromptCore env c fromId (effectiveEdit newPrompt) optStream

/-- Firing of a message's streaming-stop event.  If the one-shot
subscription registered by `handleStreamedResponse` is still live, the
message's accumulated content is finalized (also inside `messages` when
the message was already admitted — the source shares the object), the
cumulative counters are bumped by `getSize()`/`getCost()` at fire time
plus the message's own size/cost, and the subscription unsubscribes
itself; otherwise the firing is a no-op. -/
def fireStreamingStop (env : Env) (c : Conversation) (id : Nat)
    (content : String) : Conversation :=
  if id ∈ c.pending then
    let c1 := { c with
      messages := c.messages.map fun (m : Message) =>
        if m.id == id then { m with content := content } else m }
    { c1 with
      cumulativeSize :=
        c1.cumulativeSize + convSize env c1 + env.sizeFn content,
      cumulativeCost :=
        c1.cumulativeCost + convCost env c1 +
          env.costFn Role.assistant content,
      pending := c1.pending.filter (fun x => x != id) }
  else c

/-- A `ConversationConfigParameters` object: each field optionally
present.  Modelled from the spec (§4.6): `ConversationConfig` itself is
not among the provided sources. -/
structure ConfigPatch where
  context : Option String
  moderation : Option ModerationPolicy
  stream : Option Bool
  dry : Option Bool
  deriving DecidableEq, Repr

/-- Modelled from the spec: building a validated `ConversationConfig`
from a parameter object, absent fields falling back to the base
(current values in merge mode, library defaults in replace mode). -/
def patchOver (base : Config) (p : ConfigPatch) : Config :=
  { context := p.context.getD base.context,
    moderation := p.moderation.getD base.moderation,
    stream := p.stream.getD base.stream,
    dry := p.dry.getD base.dry }

/-- Modelled from the spec: the library defaults of the config fields. -/
def defaultConfig : Config :=
  { context := "", moderation := ModerationPolicy.off,
    stream := false, dry := false }

/-- `Conversation.setConfig`: build the new config (merge or replace),
then apply the incoming `context` — only when truthy — via
`setContext`. -/
def setConfig (env : Env) (c : Conversation) (p : ConfigPatch)
    (merge : Bool) : Conversation :=
  let newCfg := if merge then patchOver c.config p else patchOver defaultConfig p
  let c1 := { c with config := newCfg }
  match p.context with
  | some ctx => if ctx ≠ "" then setContext env c1 ctx else c1
  | none => c1

/-- The public operations of a `Conversation`, as a trace alphabet.
`streamStop` is the delivery of a pending streaming-stop event with the
stream's accumulated content. -/
inductive Op where
  | addUser (s : String)
  | addAssistant (s : String)
  | setCtx (s : String)
  | removeMsg (id : Nat)
  | clearAll
  | promptOp (s : String) (os : Option Bool)
  | repromptOp (id : Nat) (np : Option String) (os : Option Bool)
  | setConfigOp (p : ConfigPatch) (merge : Bool)
  | streamStop (id : Nat) (content : String)

/-- The state after one public operation, whether it succeeded or threw
(a thrown operation leaves the state it reached at throw time). -/
def applyOp (env : Env) (c : Conversation) : Op → Conversation
  | Op.addUser s =>
    match addUserMessageE env c s with
    | Except.ok r => r.1
    | Except.error _ => c
  | Op.addAssistant s =>
    match addAssistantMessageE env c s with
    | Except.ok r => r.1
    | Except.error _ => c
  | Op.setCtx s => setContext env c s
  | Op.removeMsg id => removeMessage c id
  | Op.clearAll => clearMessages env c
  | Op.promptOp s os =>
    match prompt env c s os with
    | Except.ok r => r.1
    | Except.error e => e.2
  | Op.repromptOp id np os =>
    match reprompt env c id np os with
    | Except.ok r => r.1
    | Except.error e => e.2
  | Op.setConfigOp p merge => setConfig env c p merge
  | Op.streamStop id content => fireStreamingStop env c id content

/-- The state after a whole trace of public operations. -/
def runTrace (env : Env) (c : Conversation) (ops : List Op) : Conversation :=
  ops.foldl (applyOp env) c

/-- One `addUserMessage` or `addAssistantMessage` call. -/
inductive UAOp where
  | user (s : String)
  | assistant (s : String)

/-- Run a sequence of `addUserMessage`/`addAssistantMessage` calls,
stopping at the first failure. -/
def runUA (env : Env) (c : Conversation) :
    List UAOp → Except ConvError Conversation
  | [] => Except.ok c
  | op :: rest =>
    match (match op with
           | UAOp.user s => addUserMessageE env c s
           | UAOp.assistant s => addAssistantMessageE env c s) with
    | Except.error e => Except.error e
    | Except.ok r => runUA env r.1 rest

/-! ### Invariant predicates -/

/-- Spec invariant 1 on a history: only the head position may carry the
system role (hence at most one system message, at index 0). -/
def sysTailFree (l : List Message) : Prop :=
  ∀ m ∈ l.tail, m.role ≠ Role.system

/-- The head-is-system-iff-context-non-empty relation on a history and
a context string. -/
def ctxIffL (l : List Message) (ctx : String) : Prop :=
  l.head?.map Message.role = some Role.system ↔ ctx ≠ ""

/-- Spec testable property: the head is a system message iff the
effective context is non-empty. -/
def ctxHeadIff (c : Conversation) : Prop :=
  ctxIffL c.messages c.config.context

/-- Operations that neither remove messages nor replace the config. -/
def removalFree : Op → Bool
  | Op.removeMsg _ => false
  | Op.repromptOp _ _ _ => false
  | Op.setConfigOp _ _ => false
  | _ => true

/-- All message ids are below the fresh-id source. -/
def idsFresh (c : Conversation) : Prop :=
  ∀ m ∈ c.messages, m.id < c.nextId

/-- Spec invariant 2 on a history: adjacent entries never share a role
(with at most one leading system message this is exactly "no two
adjacent non-system messages share a role"). -/
def roleChain (l : List Message) : Prop :=
  List.Chain' (fun a b => a.role ≠ b.role) l

/-- The history left behind by a system-message admission: the old
system head, when present, is dropped. -/
def dropSysHead (l : List Message) : List Message :=
  match l with
  | [] => []
  | m0 :: rest => if m0.role = Role.system then rest else m0 :: rest

/-- A concrete environment for witnesses: sizes and costs are character
counts, moderation never flags, completions always answer. -/
def envL : Env :=
  { sizeFn := fun s => s.data.length,
    costFn := fun _ s => s.data.length,
    moderate := fun _ => [],
    completion := fun _ => Except.ok "Sure." }

/-- A concrete environment whose completion client always fails. -/
def envFail : Env :=
  { sizeFn := fun s => s.data.length,
    costFn := fun _ s => s.data.length,
    moderate := fun _ => [],
    completion := fun _ => Except.error () }

/-- A dry-run config with no context. -/
def cfgDry : Config :=
  { context := "", moderation := ModerationPolicy.off,
    stream := false, dry := true }

/-- A dry-run config with a context message. -/
def cfgTerse : Config :=
  { context := "Be terse.", moderation := ModerationPolicy.off,
    stream := false, dry := true }

/-- A live (non-dry) config with no context. -/
def cfgLive : Config :=
  { context := "", moderation := ModerationPolicy.off,
    stream := false, dry := false }

/-- The shared-object effect of a stream reaching its end: the
message's accumulated content is finalized, also inside `messages` when
the message was admitted (the source shares the object). -/
def finalizeContent (c : Conversation) (id : Nat) (content : String) :
    Conversation :=
  { c with
    messages := c.messages.map fun (m : Message) =>
      if m.id == id then { m with content := content } else m }

/-- A dry-run config whose default is the streamed path. -/
def cfgDryStream : Config :=
  { context := "", moderation := ModerationPolicy.off,
    stream := true, dry := true }

/-- The state right after a streamed dry `prompt("Hi")`: the empty
assistant message (id 2) has been admitted and still carries its live
one-shot streaming-stop subscription. -/
def convS : Conversation :=
  runTrace envL (Conversation.create envL cfgDryStream)
    [Op.promptOp "Hi" none]

/-- A conversation with one admitted user message and a live pending
streaming-stop subscription for the not-yet-admitted message id 2 (the
state right after a standalone streamed `getChatCompletionResponse`). -/
def convP : Conversation :=
  Conversation.mk cfgDry [Message.mk 1 Role.user "Hi"] 0 0 3 [2] []

/-- A live conversation whose completion client always fails. -/
def convL : Conversation := Conversation.create envFail cfgLive

/-- A conversation holding just its context message (id 0). -/
def convA : Conversation := Conversation.create envL cfgTerse

/-- A two-turn dry conversation: user "A", assistant "A", user "C",
assistant "C" (dry mode echoes the prompt). -/
def convB : Conversation :=
  (runTrace envL (Conversation.create envL cfgDry)
    [Op.promptOp "A" none, Op.promptOp "C" none])

/-- The invariant bundle preserved by removal-free operations: spec
invariant 1, the head/context iff, a non-strict moderation policy (so
system admissions cannot be rejected) and fresh ids. -/
def ConvInv (c : Conversation) : Prop :=
  sysTailFree c.messages ∧
  ctxIffL c.messages c.config.context ∧
  c.config.moderation ≠ ModerationPolicy.strict ∧
  idsFresh c

/-! ### Easy shape lemmas about `addMessageE` -/


/-- A successful admission of a non-system (user/assistant) message
appends exactly the trimmed message and touches nothing else; the
role-adjacency guard must have passed. -/
theorem addMessageE_ok_nonsystem (env : Env) (c : Conversation)
    (m : Message) (c' : Conversation) (m' : Message)
    (hr : m.role ≠ Role.system)
    (h : addMessageE env c m = Except.ok (c', m')) :
    m' = { m with content := trimString m.content } ∧
    c'.messages = c.messages ++ [m'] ∧
    c'.config = c.config ∧
    c'.cumulativeSize = c.cumulativeSize ∧
    c'.cumulativeCost = c.cumulativeCost ∧
    c'.nextId = c.nextId ∧
    c'.pending = c.pending ∧
    c'.events = c.events ++ [Event.added m'.id] ∧
    Option.map Message.role c.messages.getLast? ≠ some m.role := by
  simp only [addMessageE] at h
  split_ifs at h with h1 h2 h3
  simp only [Except.ok.injEq, Prod.mk.injEq] at h
  obtain ⟨hc, hm⟩ := h
  subst hc
  subst hm
  simp_all

/-- A successful admission of a system message: the effective context
becomes the trimmed content; the head is replaced (non-empty content)
or an existing system head removed (empty content); nothing else
changes. -/
theorem addMessageE_ok_system (env : Env) (c : Conversation)
    (m : Message) (c' : Conversation) (m' : Message)
    (hr : m.role = Role.system)
    (h : addMessageE env c m = Except.ok (c', m')) :
    m' = { m with content := trimString m.content } ∧
    c'.messages =
      (if trimString m.content = "" then [] else [m']) ++
        dropSysHead c.messages ∧
    c'.config.context = trimString m.content ∧
    c'.config.moderation = c.config.moderation ∧
    c'.config.stream = c.config.stream ∧
    c'.config.dry = c.config.dry ∧
    c'.cumulativeSize = c.cumulativeSize ∧
    c'.cumulativeCost = c.cumulativeCost ∧
    c'.nextId = c.nextId ∧
    c'.pending = c.pending ∧
    c'.events = c.events ++ [Event.added m'.id] := by
  simp only [addMessageE] at h
  split_ifs at h with h1 h2 h3
  · split at h
    · simp only [Except.ok.injEq, Prod.mk.injEq] at h
      obtain ⟨hc, hmm⟩ := h
      subst hc; subst hmm
      simp_all [dropSysHead]
    · rename_i m0 rest heq
      split_ifs at h with h5
      · simp only [Except.ok.injEq, Prod.mk.injEq] at h
        obtain ⟨hc, hmm⟩ := h
        subst hc; subst hmm
        simp_all [dropSysHead]
      · simp only [Except.ok.injEq, Prod.mk.injEq] at h
        obtain ⟨hc, hmm⟩ := h
        subst hc; subst hmm
        simp_all [dropSysHead]
  · split at h
    · simp only [Except.ok.injEq, Prod.mk.injEq] at h
      obtain ⟨hc, hmm⟩ := h
      subst hc; subst hmm
      simp_all [dropSysHead]
    · rename_i m0 rest heq
      split_ifs at h with h5
      · simp only [Except.ok.injEq, Prod.mk.injEq] at h
        obtain ⟨hc, hmm⟩ := h
        subst hc; subst hmm
        simp_all [dropSysHead]
      · simp only [Except.ok.injEq, Prod.mk.injEq] at h
        obtain ⟨hc, hmm⟩ := h
        subst hc; subst hmm
        simp_all [dropSysHead]

/-- `removeMessage` always leaves exactly the messages whose id differs
(a filter), whether or not the id was found. -/
theorem removeMessage_messages (c : Conversation) (id : Nat) :
    (removeMessage c id).messages =
      c.messages.filter (fun m => m.id != id) := by
  unfold removeMessage
  split
  · rename_i hfind
    rw [List.find?_eq_none] at hfind
    have : ∀ m ∈ c.messages, (fun (m : Message) => m.id != id) m = true := by
      intro m hm
      simpa using hfind m hm
    rw [List.filter_eq_self.mpr this]
  · rfl

/-- `removeMessage` never touches config, counters, fresh-id source or
pending subscriptions. -/
theorem removeMessage_fields (c : Conversation) (id : Nat) :
    (removeMessage c id).config = c.config ∧
    (removeMessage c id).cumulativeSize = c.cumulativeSize ∧
    (removeMessage c id).cumulativeCost = c.cumulativeCost ∧
    (removeMessage c id).nextId = c.nextId ∧
    (removeMessage c id).pending = c.pending := by
  unfold removeMessage
  split <;> simp

/-- An id absent from the history makes `removeMessage` a complete
no-op (the source returns early without notifying anyone). -/
theorem removeMessage_absent (c : Conversation) (id : Nat)
    (h : ∀ m ∈ c.messages, m.id ≠ id) :
    removeMessage c id = c := by
  unfold removeMessage
  split
  · rfl
  · rename_i rm hfind
    exact absurd (by simpa using List.find?_some hfind)
      (h rm (List.mem_of_find?_eq_some hfind))

/-- C8: message admission fails with `EmptyUserContent` exactly when the
candidate's role is `user` and its trimmed content is empty; since every
throw in `addMessage` precedes any mutation, such a failure returns no
state and the conversation (messages, counters, config) is untouched. -/
theorem claim8_empty_user_admission (env : Env) (c : Conversation)
    (m : Message) :
    addMessageE env c m = Except.error ConvError.emptyUserContent ↔
      m.role = Role.user ∧ trimString m.content = "" := by
  constructor
  · intro h
    simp only [addMessageE] at h
    split_ifs at h with h1 h2 h3
    · exact ⟨h1.2, h1.1⟩
    all_goals first
      | simp at h
      | ((split at h) <;> (try split_ifs at h) <;> (try simp at h))
  · rintro ⟨h1, h2⟩
    simp [addMessageE, h1, h2]

/-- C10: passing `newPrompt = ""` to `reprompt` is identical to omitting
it: the JS truthiness test `if (newPrompt)` skips the in-place overwrite
for the empty string. -/
theorem claim10_reprompt_empty_prompt (env : Env) (c : Conversation)
    (fromId : Nat) (os : Option Bool) :
    reprompt env c fromId (some "") os = reprompt env c fromId none os := rfl

/-- C6 counterexample: `removeMessage` with an id not present does not
fail with `MessageNotFound`; it returns normally and leaves the
conversation (including the notification log) untouched. -/
theorem claim6_counterexample :
    removeMessage convA 99 = convA := by decide

/-- C6 (amended): `reprompt` with an id absent from the history fails
with `MessageNotFound` and leaves the conversation unchanged, while
`removeMessage` with such an id is a silent no-op (normal return, no
change, no notification). -/
theorem claim6_unknown_id (env : Env) (c : Conversation) (id : Nat)
    (np : Option String) (os : Option Bool)
    (h : ∀ m ∈ c.messages, m.id ≠ id) :
    removeMessage c id = c ∧
    reprompt env c id np os =
      Except.error (ConvError.messageNotFound, c) := by
  refine ⟨removeMessage_absent c id h, ?_⟩
  unfold reprompt repromptCore
  have hf : c.messages.findIdx? (fun m => m.id == id) = none := by
    rw [List.findIdx?_eq_none_iff]
    intro x hx
    simpa using h x hx
  rw [hf]

/-- C6 witness: a concrete unknown id. -/
theorem claim6_unknown_id_w :
    removeMessage convA 99 = convA ∧
    reprompt envL convA 99 none none =
      Except.error (ConvError.messageNotFound, convA) :=
  claim6_unknown_id envL convA 99 none none (by decide)

/-- Mapping a function that fixes every element of a list is the
identity. -/
theorem map_fix_eq_self {α : Type} (l : List α) (f : α → α)
    (h : ∀ x ∈ l, f x = x) : l.map f = l := by
  rw [List.map_congr_left h]
  exact List.map_id l

/-- A successful non-streamed response: history and log untouched, a
fresh assistant message returned, counters bumped by the current
history plus the message itself. -/
theorem handleNonStreamedResponse_ok (env : Env) (c : Conversation)
    (c1 : Conversation) (m : Message)
    (h : handleNonStreamedResponse env c = Except.ok (c1, m)) :
    c1.messages = c.messages ∧
    c1.config = c.config ∧
    c1.nextId = c.nextId + 1 ∧
    c1.pending = c.pending ∧
    c1.events = c.events ∧
    m.role = Role.assistant ∧
    m.id = c.nextId ∧
    c1.cumulativeSize =
      c.cumulativeSize + convSize env c + env.sizeFn m.content ∧
    c1.cumulativeCost =
      c.cumulativeCost + convCost env c +
        env.costFn Role.assistant m.content ∧
    (c.config.dry = true → m.content = lastContent c) := by
  simp only [handleNonStreamedResponse, newMessage] at h
  split_ifs at h with hdry
  · simp only [Except.ok.injEq, Prod.mk.injEq] at h
    obtain ⟨hc, hm⟩ := h
    subst hc; subst hm
    simp_all [convSize, convCost, lastContent]
  · split at h
    · simp at h
    · rename_i content hcomp
      simp only [Except.ok.injEq, Prod.mk.injEq] at h
      obtain ⟨hc, hm⟩ := h
      subst hc; subst hm
      simp_all [convSize, convCost]

/-- A failed non-streamed response is a transport error that leaves
everything but the fresh-id counter untouched. -/
theorem handleNonStreamedResponse_error (env : Env) (c : Conversation)
    (e : ConvError) (c1 : Conversation)
    (h : handleNonStreamedResponse env c = Except.error (e, c1)) :
    e = ConvError.transportError ∧
    c1.messages = c.messages ∧
    c1.config = c.config ∧
    c1.nextId = c.nextId + 1 ∧
    c1.pending = c.pending ∧
    c1.events = c.events ∧
    c1.cumulativeSize = c.cumulativeSize ∧
    c1.cumulativeCost = c.cumulativeCost := by
  simp only [handleNonStreamedResponse, newMessage] at h
  split_ifs at h with hdry
  split at h
  · simp only [Except.error.injEq, Prod.mk.injEq] at h
    obtain ⟨hc, hm⟩ := h
    subst hc; subst hm
    simp_all
  · simp at h

/-- A successful response turn appends exactly one fresh assistant
message, never decreases the counters, and fires exactly one "message
added" notification. -/
theorem getAssistantResponse_ok (env : Env) (c : Conversation)
    (os : Option Bool) (c' : Conversation) (am : Message)
    (h : getAssistantResponse env c os = Except.ok (c', am)) :
    c'.messages = c.messages ++ [am] ∧
    am.role = Role.assistant ∧
    am.id = c.nextId ∧
    c'.config = c.config ∧
    c'.nextId = c.nextId + 1 ∧
    (c'.pending = c.pending ∨ c'.pending = c.pending ++ [am.id]) ∧
    c'.events = c.events ++ [Event.added am.id] ∧
    c.cumulativeSize ≤ c'.cumulativeSize ∧
    c.cumulativeCost ≤ c'.cumulativeCost := by
  simp only [getAssistantResponse, getChatCompletionResponse] at h
  split_ifs at h with hstream
  · -- streamed: the completion is the fresh empty assistant message
    simp only [handleStreamedResponse, newMessage] at h
    split at h
    · simp at h
    · rename_i r hadd
      simp only [Except.ok.injEq] at h
      subst h
      obtain ⟨hm', hmsgs, hcfg, hsz, hcost, hnext, hpend, hev, _⟩ :=
        addMessageE_ok_nonsystem env _ _ c' am (by simp) hadd
      subst hm'
      refine ⟨by simpa using hmsgs, rfl, rfl, by simpa using hcfg,
        by simpa using hnext, Or.inr (by simpa using hpend),
        by simpa using hev, by simp_all, by simp_all⟩
  · -- non-streamed
    split at h
    · simp at h
    · rename_i c1 comp hns
      split at h
      · simp at h
      · rename_i r hadd
        simp only [Except.ok.injEq] at h
        subst h
        obtain ⟨hmsgs1, hcfg1, hnext1, hpend1, hev1, hrole1, hid1,
            hsz1, hcost1, _⟩ :=
          handleNonStreamedResponse_ok env c c1 comp hns
        obtain ⟨hm', hmsgs, hcfg, hsz, hcost, hnext, hpend, hev, _⟩ :=
          addMessageE_ok_nonsystem env c1 comp c' am (by
            rw [hrole1]; simp) hadd
        refine ⟨by rw [hmsgs, hmsgs1], by rw [hm']; simpa using hrole1,
          by rw [hm']; simpa using hid1, by rw [hcfg, hcfg1],
          by rw [hnext, hnext1], Or.inl (by rw [hpend, hpend1]),
          by rw [hev, hev1], by rw [hsz, hsz1]; omega,
          by rw [hcost, hcost1]; omega⟩

/-- A failed response turn leaves history, config and log exactly as
they were (only the fresh-id counter, counters and possibly a pending
subscription move). -/
theorem getAssistantResponse_error (env : Env) (c : Conversation)
    (os : Option Bool) (e : ConvError) (c2 : Conversation)
    (h : getAssistantResponse env c os = Except.error (e, c2)) :
    c2.messages = c.messages ∧
    c2.config = c.config ∧
    c2.nextId = c.nextId + 1 ∧
    c2.events = c.events ∧
    (c2.pending = c.pending ∨ c2.pending = c.pending ++ [c.nextId]) ∧
    c.cumulativeSize ≤ c2.cumulativeSize ∧
    c.cumulativeCost ≤ c2.cumulativeCost := by
  simp only [getAssistantResponse, getChatCompletionResponse] at h
  split_ifs at h with hstream
  · simp only [handleStreamedResponse, newMessage] at h
    split at h
    · rename_i eA hadd
      simp only [Except.error.injEq, Prod.mk.injEq] at h
      obtain ⟨he, hc⟩ := h
      subst he; subst hc
      simp
    · simp at h
  · split at h
    · rename_i eP hgccr
      obtain ⟨he2, hc2⟩ : eP.1 = e ∧ eP.2 = c2 := by
        cases h; exact ⟨rfl, rfl⟩
      obtain ⟨hte, hmsgs, hcfg, hnext, hpend, hev, hsz, hcost⟩ :=
        handleNonStreamedResponse_error env c eP.1 eP.2 (by
          rw [← hgccr])
      rw [hc2] at hmsgs hcfg hnext hpend hev hsz hcost
      exact ⟨hmsgs, hcfg, hnext, hev, Or.inl hpend, le_of_eq hsz.symm,
        le_of_eq hcost.symm⟩
    · rename_i c1 comp hns
      split at h
      · rename_i eA hadd
        simp only [Except.error.injEq, Prod.mk.injEq] at h
        obtain ⟨he, hc⟩ := h
        subst he; subst hc
        obtain ⟨hmsgs1, hcfg1, hnext1, hpend1, hev1, hrole1, hid1,
            hsz1, hcost1, _⟩ :=
          handleNonStreamedResponse_ok env c c1 comp hns
        exact ⟨hmsgs1, hcfg1, hnext1, hev1, Or.inl hpend1,
          by rw [hsz1]; omega, by rw [hcost1]; omega⟩
      · simp at h

/-- C1: a `prompt` whose user admission succeeded but whose
response-generation step failed rolls back the just-admitted user
message: the history after the failed call is identical — in
particular as an id sequence — to the history before the call. -/
theorem claim1_prompt_rollback (env : Env) (c : Conversation)
    (text : String) (os : Option Bool) (e : ConvError)
    (c' : Conversation) (u : Conversation × Message)
    (hfresh : ∀ m ∈ c.messages, m.id < c.nextId)
    (hu : addUserMessageE env c text = Except.ok u)
    (h : prompt env c text os = Except.error (e, c')) :
    c'.messages = c.messages ∧
    c'.messages.map Message.id = c.messages.map Message.id := by
  obtain ⟨c1, um⟩ := u
  obtain ⟨hm', hmsgs, hcfg, _, _, hnext, _, _, _⟩ :=
    addMessageE_ok_nonsystem env { c with nextId := c.nextId + 1 }
      ⟨c.nextId, Role.user, text⟩ c1 um (by simp) hu
  simp only [prompt] at h
  rw [hu] at h
  split at h
  · rename_i e2 heq
    exact absurd heq (by simp)
  · rename_i c1x umx heq
    obtain ⟨hc1x, humx⟩ : c1 = c1x ∧ um = umx := by
      simpa using heq
    subst hc1x; subst humx
    split at h
    · simp at h
    rename_i e2 c2 hgar
    simp only [Except.error.injEq, Prod.mk.injEq] at h
    obtain ⟨he, hc⟩ := h
    subst hc
    obtain ⟨hmsgs2, _, _, _, _, _, _⟩ :=
      getAssistantResponse_error env c1 os e2 c2 hgar
    have hid : um.id = c.nextId := by rw [hm']
    have hfil : (removeMessage c2 um.id).messages = c.messages := by
      rw [removeMessage_messages, hmsgs2, hmsgs]
      simp only [List.filter_append]
      have h1 : c.messages.filter (fun m => m.id != um.id) = c.messages := by
        apply List.filter_eq_self.mpr
        intro a ha
        have := hfresh a ha
        simp only [ne_eq, bne_iff_ne]
        omega
      have h2 : List.filter (fun m => m.id != um.id) [um] = [] := by
        simp
      rw [h1, h2, List.append_nil]
    exact ⟨hfil, by rw [hfil]⟩

theorem claim1_prompt_rollback_w :
    (Conversation.mk cfgLive [] 0 0 3 []
        [Event.added 0, Event.added 1, Event.removed 1]).messages =
      convL.messages ∧
    (Conversation.mk cfgLive [] 0 0 3 []
        [Event.added 0, Event.added 1, Event.removed 1]).messages.map
        Message.id =
      convL.messages.map Message.id :=
  claim1_prompt_rollback envFail convL "Hi" none ConvError.transportError
    (Conversation.mk cfgLive [] 0 0 3 []
      [Event.added 0, Event.added 1, Event.removed 1])
    (Conversation.mk cfgLive [Message.mk 1 Role.user "Hi"] 0 0 2 []
        [Event.added 0, Event.added 1],
      Message.mk 1 Role.user "Hi")
    (by decide) (by rfl) (by rfl)

/-- C9: with config `{dry: true}` (non-streamed), `prompt("Hello")`
succeeds and returns an assistant message whose content equals the
just-submitted user message's content (the dry-run echo of the last
message), and afterwards the cumulative size is positive whenever the
tokenizer gives "Hello" a positive size. -/
theorem claim9_dry_prompt_echo (env : Env)
    (hsz : 0 < env.sizeFn "Hello") :
    prompt env (Conversation.create env cfgDry) "Hello" none =
      Except.ok
        (Conversation.mk cfgDry
          [Message.mk 1 Role.user "Hello",
           Message.mk 2 Role.assistant "Hello"]
          (env.sizeFn "Hello" + env.sizeFn "Hello")
          (env.costFn Role.user "Hello" +
            env.costFn Role.assistant "Hello")
          3 [] [Event.added 0, Event.added 1, Event.added 2],
         Message.mk 2 Role.assistant "Hello") ∧
    0 < env.sizeFn "Hello" + env.sizeFn "Hello" := by
  constructor
  · have h1 : trimString "Hello" = "Hello" := rfl
    have h2 : trimString "" = "" := rfl
    simp +decide [prompt, Conversation.create, clearMessages, setContext,
      newMessage, addMessageE, addUserMessageE, getAssistantResponse,
      getChatCompletionResponse, handleNonStreamedResponse, lastContent,
      convSize, convCost, cfgDry, removeMessage, h1, h2]
  · omega

theorem claim9_dry_prompt_echo_w :
    prompt envL (Conversation.create envL cfgDry) "Hello" none =
      Except.ok
        (Conversation.mk cfgDry
          [Message.mk 1 Role.user "Hello",
           Message.mk 2 Role.assistant "Hello"]
          (envL.sizeFn "Hello" + envL.sizeFn "Hello")
          (envL.costFn Role.user "Hello" +
            envL.costFn Role.assistant "Hello")
          3 [] [Event.added 0, Event.added 1, Event.added 2],
         Message.mk 2 Role.assistant "Hello") ∧
    0 < envL.sizeFn "Hello" + envL.sizeFn "Hello" :=
  claim9_dry_prompt_echo envL (by decide)

/-- Admission never changes the cumulative counters (they move only in
the response handlers). -/
theorem addMessageE_counters (env : Env) (c : Conversation)
    (m : Message) (c' : Conversation) (m' : Message)
    (h : addMessageE env c m = Except.ok (c', m')) :
    c'.cumulativeSize = c.cumulativeSize ∧
    c'.cumulativeCost = c.cumulativeCost := by
  by_cases hr : m.role = Role.system
  · obtain ⟨_, _, _, _, _, _, hsz, hcost, _⟩ :=
      addMessageE_ok_system env c m c' m' hr h
    exact ⟨hsz, hcost⟩
  · obtain ⟨_, _, _, hsz, hcost, _⟩ :=
      addMessageE_ok_nonsystem env c m c' m' hr h
    exact ⟨hsz, hcost⟩

/-- `setContext` never changes the cumulative counters. -/
theorem setContext_counters (env : Env) (c : Conversation)
    (ctx : String) :
    (setContext env c ctx).cumulativeSize = c.cumulativeSize ∧
    (setContext env c ctx).cumulativeCost = c.cumulativeCost := by
  simp only [setContext, newMessage]
  split
  · rename_i r h
    obtain ⟨hsz, hcost⟩ := addMessageE_counters env _ _ r.1 r.2 (by
      rw [← h])
    exact ⟨hsz, hcost⟩
  · exact ⟨rfl, rfl⟩

/-- Removing a whole batch of messages never changes the counters. -/
theorem foldRemove_counters (l : List Message) (c : Conversation) :
    ((l.foldl (fun acc m => removeMessage acc m.id) c).cumulativeSize =
      c.cumulativeSize) ∧
    ((l.foldl (fun acc m => removeMessage acc m.id) c).cumulativeCost =
      c.cumulativeCost) := by
  induction l generalizing c with
  | nil => exact ⟨rfl, rfl⟩
  | cons a t ih =>
    obtain ⟨h1, h2⟩ := ih (removeMessage c a.id)
    obtain ⟨_, f1, f2, _, _⟩ := removeMessage_fields c a.id
    simp only [List.foldl_cons]
    exact ⟨h1.trans f1, h2.trans f2⟩

/-- No public operation ever decreases the cumulative counters. -/
theorem applyOp_counters_le (env : Env) (c : Conversation) (op : Op) :
    c.cumulativeSize ≤ (applyOp env c op).cumulativeSize ∧
    c.cumulativeCost ≤ (applyOp env c op).cumulativeCost := by
  cases op with
  | addUser s =>
    simp only [applyOp]
    split
    · rename_i r h
      obtain ⟨h1, h2⟩ := addMessageE_counters env _ _ r.1 r.2 (by
        simpa [addUserMessageE, newMessage] using h)
      exact ⟨le_of_eq h1.symm, le_of_eq h2.symm⟩
    · exact ⟨le_refl _, le_refl _⟩
  | addAssistant s =>
    simp only [applyOp]
    split
    · rename_i r h
      obtain ⟨h1, h2⟩ := addMessageE_counters env _ _ r.1 r.2 (by
        simpa [addAssistantMessageE, newMessage] using h)
      exact ⟨le_of_eq h1.symm, le_of_eq h2.symm⟩
    · exact ⟨le_refl _, le_refl _⟩
  | setCtx s =>
    obtain ⟨h1, h2⟩ := setContext_counters env c s
    exact ⟨le_of_eq h1.symm, le_of_eq h2.symm⟩
  | removeMsg id =>
    obtain ⟨_, h1, h2, _, _⟩ := removeMessage_fields c id
    exact ⟨le_of_eq h1.symm, le_of_eq h2.symm⟩
  | clearAll =>
    obtain ⟨h1, h2⟩ :=
      setContext_counters env { c with messages := [] } c.config.context
    exact ⟨le_of_eq h1.symm, le_of_eq h2.symm⟩
  | promptOp s os =>
    simp only [applyOp]
    split
    · rename_i r h
      simp only [prompt] at h
      split at h
      · simp at h
      · rename_i c1 um hadd
        obtain ⟨h1, h2⟩ := addMessageE_counters env _ _ c1 um (by
          simpa [addUserMessageE, newMessage] using hadd)
        split at h
        · rename_i r2 hgar
          obtain ⟨_, _, _, _, _, _, _, hsz, hcost⟩ :=
            getAssistantResponse_ok env c1 os r2.1 r2.2 (by rw [← hgar])
          cases h
          constructor
          · exact le_trans (le_of_eq h1.symm) hsz
          · exact le_trans (le_of_eq h2.symm) hcost
        · simp at h
    · rename_i e h
      simp only [prompt] at h
      split at h
      · cases h
        exact ⟨le_refl _, le_refl _⟩
      · rename_i c1 um hadd
        obtain ⟨h1, h2⟩ := addMessageE_counters env _ _ c1 um (by
          simpa [addUserMessageE, newMessage] using hadd)
        split at h
        · simp at h
        · rename_i e2 c2 hgar
          obtain ⟨_, _, _, _, _, hsz, hcost⟩ :=
            getAssistantResponse_error env c1 os e2 c2 hgar
          cases h
          obtain ⟨_, f1, f2, _, _⟩ := removeMessage_fields c2 um.id
          constructor
          · exact le_trans (le_of_eq h1.symm) (le_trans hsz (le_of_eq f1.symm))
          · exact le_trans (le_of_eq h2.symm) (le_trans hcost (le_of_eq f2.symm))
  | repromptOp id np os =>
    simp only [applyOp]
    split
    · rename_i r h
      simp only [reprompt, repromptCore] at h
      split at h
      · simp at h
      split at h
      · simp at h
      split_ifs at h with hg
      all_goals split at h
      all_goals try simp at h
      all_goals split at h
      all_goals try simp at h
      all_goals
        rename_i r2 hgar
      all_goals
        obtain ⟨_, _, _, _, _, _, _, hsz, hcost⟩ :=
          getAssistantResponse_ok env _ os r2.1 r2.2 (by rw [← hgar])
        cases h
        rw [(foldRemove_counters _ _).1] at hsz
        rw [(foldRemove_counters _ _).2] at hcost
        exact ⟨hsz, hcost⟩
    · rename_i e h
      simp only [reprompt, repromptCore] at h
      split at h
      · cases h
        exact ⟨le_refl _, le_refl _⟩
      split at h
      · cases h
        exact ⟨le_refl _, le_refl _⟩
      split_ifs at h with hg
      · cases h
        exact ⟨le_refl _, le_refl _⟩
      all_goals split at h
      all_goals try (cases h; exact ⟨le_refl _, le_refl _⟩)
      all_goals split at h
      all_goals try simp at h
      all_goals
        rename_i e2 c3 hgar
      all_goals
        obtain ⟨_, _, _, _, _, hsz, hcost⟩ :=
          getAssistantResponse_error env _ os e2 c3 hgar
        cases h
        rw [(foldRemove_counters _ _).1] at hsz
        rw [(foldRemove_counters _ _).2] at hcost
        obtain ⟨_, g1, g2, _, _⟩ := removeMessage_fields c3 _
        exact ⟨le_trans hsz (le_of_eq g1.symm),
          le_trans hcost (le_of_eq g2.symm)⟩
  | setConfigOp p merge =>
    simp only [applyOp, setConfig]
    split
    · rename_i np hctx
      split_ifs with hcnd
      · exact ⟨le_of_eq ((setContext_counters env
            { c with config := patchOver c.config p } np).1).symm,
          le_of_eq ((setContext_counters env
            { c with config := patchOver c.config p } np).2).symm⟩
      · exact ⟨le_of_eq ((setContext_counters env
            { c with config := patchOver defaultConfig p } np).1).symm,
          le_of_eq ((setContext_counters env
            { c with config := patchOver defaultConfig p } np).2).symm⟩
      · exact ⟨le_refl _, le_refl _⟩
      · exact ⟨le_refl _, le_refl _⟩
    · exact ⟨le_refl _, le_refl _⟩
  | streamStop id content =>
    simp only [applyOp, fireStreamingStop]
    split_ifs with hp
    · constructor <;> (simp; omega)
    · exact ⟨le_refl _, le_refl _⟩

/-- C7: `getCumulativeSize()` and `getCumulativeCost()` are
monotonically non-decreasing across any sequence of public operations,
including failed operations and message removals. -/
theorem claim7_counters_monotone (env : Env) (c : Conversation)
    (ops : List Op) :
    c.cumulativeSize ≤ (runTrace env c ops).cumulativeSize ∧
    c.cumulativeCost ≤ (runTrace env c ops).cumulativeCost := by
  induction ops generalizing c with
  | nil => exact ⟨le_refl _, le_refl _⟩
  | cons op rest ih =>
    obtain ⟨h1, h2⟩ := applyOp_counters_le env c op
    obtain ⟨h3, h4⟩ := ih (applyOp env c op)
    exact ⟨le_trans h1 h3, le_trans h2 h4⟩

/-- Appending a message whose role differs from the last entry's
preserves the no-adjacent-equal-roles chain. -/
theorem roleChain_append (l : List Message) (m : Message)
    (hc : roleChain l)
    (hl : ∀ x ∈ l.getLast?, x.role ≠ m.role) :
    roleChain (l ++ [m]) := by
  unfold roleChain at *
  rw [List.chain'_append]
  refine ⟨hc, List.chain'_singleton m, ?_⟩
  intro x hx y hy
  simp only [List.head?_cons, Option.mem_def, Option.some.injEq] at hy
  subst hy
  exact hl x hx

/-- A freshly created conversation has at most one (system) message. -/
theorem create_messages_short (env : Env) (cfg : Config) :
    (Conversation.create env cfg).messages = [] ∨
    ∃ mm, (Conversation.create env cfg).messages = [mm] := by
  unfold Conversation.create clearMessages setContext
  simp only [newMessage]
  split
  · rename_i r h
    obtain ⟨_, hmsgs, _⟩ :=
      addMessageE_ok_system env _ _ r.1 r.2 rfl h
    simp only [dropSysHead] at hmsgs
    split_ifs at hmsgs with he
    · left
      simpa using hmsgs
    · right
      exact ⟨_, by simpa using hmsgs⟩
  · left
    rfl

/-- Successful user/assistant admissions preserve the chain. -/
theorem runUA_chain (env : Env) (c : Conversation) (ops : List UAOp)
    (c' : Conversation)
    (hc : roleChain c.messages)
    (h : runUA env c ops = Except.ok c') :
    roleChain c'.messages := by
  induction ops generalizing c with
  | nil =>
    simp only [runUA, Except.ok.injEq] at h
    subst h
    exact hc
  | cons op rest ih =>
    simp only [runUA] at h
    split at h
    · simp at h
    · rename_i r hadd
      apply ih r.1 _ h
      have hshape :
          ∃ m, m.role ≠ Role.system ∧
            addMessageE env { c with nextId := c.nextId + 1 } m =
              Except.ok r := by
        cases op with
        | user s =>
          exact ⟨⟨c.nextId, Role.user, s⟩, by simp, by
            simpa [addUserMessageE, newMessage] using hadd⟩
        | assistant s =>
          exact ⟨⟨c.nextId, Role.assistant, s⟩, by simp, by
            simpa [addAssistantMessageE, newMessage] using hadd⟩
      obtain ⟨m, hmr, hm⟩ := hshape
      obtain ⟨hm', hmsgs, _, _, _, _, _, _, hlast⟩ :=
        addMessageE_ok_nonsystem env _ m r.1 r.2 hmr hm
      rw [hmsgs]
      apply roleChain_append _ _ hc
      intro x hx
      intro hxx
      apply hlast
      have : ({ c with nextId := c.nextId + 1 } :
          Conversation).messages.getLast? = some x := hx
      rw [this]
      simp only [Option.map_some']
      rw [hxx, hm']

/-- C2: across every sequence of successful
`addUserMessage`/`addAssistantMessage` calls on a fresh conversation no
two adjacent entries share a role, and admitting a user/assistant
message whose role equals the current last message's role (with the
earlier admission checks passing: non-empty trimmed content for user
messages, moderation not blocking) fails with `AdjacentRoleViolation`
— and, the error carrying no state, appends nothing. -/
theorem claim2_adjacent_role_invariant (env : Env) :
    (∀ cfg ops c',
      runUA env (Conversation.create env cfg) ops = Except.ok c' →
      roleChain c'.messages) ∧
    (∀ c m, m.role ≠ Role.system →
      Option.map Message.role c.messages.getLast? = some m.role →
      (m.role = Role.user → trimString m.content ≠ "") →
      ¬(c.config.moderation = ModerationPolicy.strict ∧
        env.moderate (trimString m.content) ≠ []) →
      addMessageE env c m = Except.error ConvError.adjacentRoleViolation) := by
  constructor
  · intro cfg ops c' h
    apply runUA_chain env _ ops c' _ h
    rcases create_messages_short env cfg with he | ⟨mm, he⟩ <;>
      rw [he] <;> simp [roleChain]
  · intro c m hns hlast hemp hmod
    simp only [addMessageE]
    rw [if_neg, if_neg, if_neg, if_pos]
    · exact hlast
    · simpa using hns
    · rintro ⟨h1, h2, h3⟩
      exact hmod ⟨h2, h3⟩
    · intro hand
      exact hemp hand.2 hand.1

theorem claim2_adjacent_role_invariant_w :
    roleChain
      (Conversation.mk cfgTerse
        [Message.mk 0 Role.system "Be terse.",
         Message.mk 1 Role.user "Hi",
         Message.mk 2 Role.assistant "Yo"]
        0 0 3 [] [Event.added 0, Event.added 1, Event.added 2]).messages ∧
    addMessageE envL convB (Message.mk 9 Role.assistant "Nope") =
      Except.error ConvError.adjacentRoleViolation := by
  obtain ⟨h1, h2⟩ := claim2_adjacent_role_invariant envL
  constructor
  · exact h1 cfgTerse [UAOp.user "Hi", UAOp.assistant "Yo"] _ (by rfl)
  · exact h2 convB (Message.mk 9 Role.assistant "Nope") (by decide)
      (by decide) (by decide) (by decide)

/-- `find?` skips a prefix on which the predicate fails. -/
theorem find?_append_of_none {α : Type} (l1 l2 : List α) (p : α → Bool)
    (h : ∀ x ∈ l1, p x = false) :
    (l1 ++ l2).find? p = l2.find? p := by
  induction l1 with
  | nil => rfl
  | cons a t ih =>
    rw [List.cons_append, List.find?_cons_of_neg _ (by
      simpa using h a (by simp)), ih]
    intro x hx
    exact h x (by simp [hx])

/-- Removing, one by one via `removeMessage`, the whole suffix of a
history with distinct ids leaves exactly the prefix and fires one
"message removed" notification per removed message, in original
order. -/
theorem foldRemove_spec (suf pre : List Message) (c : Conversation)
    (hmsgs : c.messages = pre ++ suf)
    (hnd : ((pre ++ suf).map Message.id).Nodup) :
    (suf.foldl (fun acc m => removeMessage acc m.id) c).messages = pre ∧
    (suf.foldl (fun acc m => removeMessage acc m.id) c).events =
      c.events ++ suf.map (fun m => Event.removed m.id) ∧
    (suf.foldl (fun acc m => removeMessage acc m.id) c).config =
      c.config ∧
    (suf.foldl (fun acc m => removeMessage acc m.id) c).nextId =
      c.nextId ∧
    (suf.foldl (fun acc m => removeMessage acc m.id) c).pending =
      c.pending := by
  induction suf generalizing pre c with
  | nil =>
    exact ⟨by simpa using hmsgs, by simp, rfl, rfl, rfl⟩
  | cons a t ih =>
    have hsplit := List.nodup_append.mp (by
      simpa [List.map_append] using hnd)
    have hprea : ∀ x ∈ pre, x.id ≠ a.id := by
      intro x hx hxa
      exact hsplit.2.2 (List.mem_map_of_mem Message.id hx)
        (by simp [hxa])
    have hta : ∀ x ∈ t, x.id ≠ a.id := by
      have hni : (∀ x ∈ t, ¬ x.id = a.id) ∧
          (List.map Message.id t).Nodup := by
        simpa using hsplit.2.1
      intro x hx
      exact hni.1 x hx
    have hfind : c.messages.find? (fun m => m.id == a.id) = some a := by
      rw [hmsgs, find?_append_of_none _ _ _ (by
        intro x hx
        simpa using hprea x hx)]
      simp [List.find?_cons]
    have hrm : removeMessage c a.id =
        { c with
          messages := pre ++ t,
          events := c.events ++ [Event.removed a.id] } := by
      unfold removeMessage
      rw [hfind]
      have hfil : c.messages.filter (fun m => m.id != a.id) =
          pre ++ t := by
        rw [hmsgs, List.filter_append]
        have h1 : pre.filter (fun m => m.id != a.id) = pre :=
          List.filter_eq_self.mpr (by
            intro x hx
            simpa using hprea x hx)
        have h2 : (a :: t).filter (fun m => m.id != a.id) = t := by
          rw [List.filter_cons_of_neg (by simp)]
          exact List.filter_eq_self.mpr (by
            intro x hx
            simpa using hta x hx)
        rw [h1, h2]
      rw [hfil]
    have hnd' : ((pre ++ t).map Message.id).Nodup := by
      have hsub : List.Sublist (pre ++ t) (pre ++ a :: t) :=
        (List.Sublist.cons a (List.Sublist.refl t)).append_left pre
      exact (hsub.map Message.id).nodup hnd
    obtain ⟨r1, r2, r3, r4, r5⟩ := ih pre (removeMessage c a.id)
      (by rw [hrm]) hnd'
    simp only [List.foldl_cons]
    refine ⟨r1, ?_, ?_, ?_, ?_⟩
    · rw [r2, hrm]
      simp
    · rw [r3, hrm]
    · rw [r4, hrm]
    · rw [r5, hrm]

/-- Overwriting one entry's content in place keeps the id sequence. -/
theorem map_id_set (l : List Message) (i : Nat) (x y : Message)
    (hget : l[i]? = some x) (hid : y.id = x.id) :
    (l.set i y).map Message.id = l.map Message.id := by
  induction l generalizing i with
  | nil => simp at hget
  | cons a t ih =>
    cases i with
    | zero =>
      simp only [List.getElem?_cons_zero, Option.some.injEq] at hget
      subst hget
      simp [hid]
    | succ n =>
      simp only [List.getElem?_cons_succ] at hget
      simp [ih n hget]

/-- The effect of `reprompt` once the branch point has been resolved:
on success everything strictly after the branch point has been removed
(one ordered notification each) and exactly one fresh assistant message
follows it; on a response failure the branch point itself has been
removed as well and the error is re-raised. -/
theorem repromptCore_spec (env : Env) (c : Conversation) (fromId : Nat)
    (edit : Option String) (os : Option Bool) (fromIndex : Nat)
    (fromMsg prevMsg : Message) (prevIndex : Nat)
    (hnd : (c.messages.map Message.id).Nodup)
    (hidx : c.messages.findIdx? (fun m => m.id == fromId) =
      some fromIndex)
    (hget : c.messages[fromIndex]? = some fromMsg)
    (hguard : ¬(fromMsg.role ≠ Role.user ∧ fromIndex = 0))
    (hprevi : prevIndex =
      (if fromMsg.role = Role.user then fromIndex else fromIndex - 1))
    (hgetp : c.messages[prevIndex]? = some prevMsg) :
    (∀ c' am, repromptCore env c fromId edit os = Except.ok (c', am) →
      c'.messages =
        (editedHistory c.messages prevIndex prevMsg edit).take
          (prevIndex + 1) ++ [am] ∧
      am.role = Role.assistant ∧
      c'.events = c.events ++
        ((editedHistory c.messages prevIndex prevMsg edit).drop
          (prevIndex + 1)).map (fun m => Event.removed m.id) ++
        [Event.added am.id]) ∧
    (∀ e c', repromptCore env c fromId edit os = Except.error (e, c') →
      c'.messages =
        (editedHistory c.messages prevIndex prevMsg edit).take
          prevIndex ∧
      c'.events = c.events ++
        ((editedHistory c.messages prevIndex prevMsg edit).drop
          (prevIndex + 1)).map (fun m => Event.removed m.id) ++
        [Event.removed prevMsg.id]) := by
  have hlen : prevIndex < c.messages.length := by
    by_contra hcon
    rw [List.getElem?_eq_none (by omega)] at hgetp
    cases hgetp
  have hids : (editedHistory c.messages prevIndex prevMsg edit).map
      Message.id = c.messages.map Message.id := by
    cases edit with
    | none => rfl
    | some np =>
      exact map_id_set c.messages prevIndex prevMsg _ hgetp rfl
  have hlen1 : prevIndex <
      (editedHistory c.messages prevIndex prevMsg edit).length := by
    have hl := congrArg List.length hids
    simp only [List.length_map] at hl
    omega
  have hpm1 : ∃ pm1,
      (editedHistory c.messages prevIndex prevMsg edit)[prevIndex]? =
        some pm1 ∧ pm1.id = prevMsg.id := by
    cases edit with
    | none => exact ⟨prevMsg, hgetp, rfl⟩
    | some np =>
      exact ⟨{ prevMsg with content := np },
        List.getElem?_set_self hlen, rfl⟩
  obtain ⟨pm1, hpm1get, hpm1id⟩ := hpm1
  have hnd1 : ((editedHistory c.messages prevIndex prevMsg edit).map
      Message.id).Nodup := by
    rw [hids]
    exact hnd
  have htake1 : (editedHistory c.messages prevIndex prevMsg edit).take
      prevIndex ++ [pm1] =
      (editedHistory c.messages prevIndex prevMsg edit).take
        (prevIndex + 1) := by
    rw [List.take_succ, hpm1get]
    rfl
  have hfold := foldRemove_spec
    ((editedHistory c.messages prevIndex prevMsg edit).drop
      (prevIndex + 1))
    ((editedHistory c.messages prevIndex prevMsg edit).take
      (prevIndex + 1))
    { c with messages := editedHistory c.messages prevIndex prevMsg edit }
    (by simp [List.take_append_drop])
    (by rw [List.take_append_drop, hids]; exact hnd)
  obtain ⟨f1, f2, f3, f4, f5⟩ := hfold
  constructor
  · intro c' am h
    simp only [repromptCore, hidx, hget] at h
    rw [if_neg hguard] at h
    rw [← hprevi] at h
    simp only [hgetp] at h
    split at h
    · rename_i r hgar
      have hok : r = (c', am) := by
        simpa using h
      subst hok
      obtain ⟨g1, g2, _, _, _, _, g7, _, _⟩ :=
        getAssistantResponse_ok env _ os c' am hgar
      refine ⟨?_, g2, ?_⟩
      · rw [g1, f1]
      · rw [g7, f2]
    · rename_i e2 c3 hgar
      simp at h
  · intro e c' h
    simp only [repromptCore, hidx, hget] at h
    rw [if_neg hguard] at h
    rw [← hprevi] at h
    simp only [hgetp] at h
    split at h
    · simp at h
    · rename_i e2 c3 hgar
      obtain ⟨he, hc⟩ : e2 = e ∧ removeMessage c3 prevMsg.id = c' := by
        simpa using h
      obtain ⟨g1, _, _, g4, _, _, _⟩ :=
        getAssistantResponse_error env _ os e2 c3 hgar
      have hc3msgs : c3.messages =
          (editedHistory c.messages prevIndex prevMsg edit).take
            prevIndex ++ [pm1] := by
        rw [g1, f1, ← htake1]
      have hone := foldRemove_spec [pm1]
        ((editedHistory c.messages prevIndex prevMsg edit).take
          prevIndex) c3 hc3msgs
        (by
          rw [htake1]
          exact ((List.take_sublist _ _).map Message.id).nodup hnd1)
      obtain ⟨o1, o2, _, _, _⟩ := hone
      have hrw : removeMessage c3 prevMsg.id = removeMessage c3 pm1.id := by
        rw [hpm1id]
      constructor
      · rw [← hc, hrw]
        simpa using o1
      · rw [← hc, hrw]
        have o2x : (removeMessage c3 pm1.id).events =
            c3.events ++ [Event.removed pm1.id] := by
          simpa using o2
        rw [o2x, g4, f2, hpm1id]

/-- C5: for a `reprompt(fromMessage, newPrompt?)` whose `fromMessage`
resolves to a message of the conversation (branch point: the resolved
message if it is a user message, else its immediate predecessor), every
message strictly after the branch point is removed via `removeMessage`,
firing "message removed" notifications in original order; a new
assistant response is requested and admitted so that on success exactly
one (fresh assistant) message follows the branch point, and on a
response failure the branch point itself is removed before the error is
re-raised. -/
theorem claim5_reprompt_branch (env : Env) (c : Conversation)
    (fromId : Nat) (newPrompt : Option String) (os : Option Bool)
    (fromIndex : Nat) (fromMsg prevMsg : Message) (prevIndex : Nat)
    (hnd : (c.messages.map Message.id).Nodup)
    (hidx : c.messages.findIdx? (fun m => m.id == fromId) =
      some fromIndex)
    (hget : c.messages[fromIndex]? = some fromMsg)
    (hguard : ¬(fromMsg.role ≠ Role.user ∧ fromIndex = 0))
    (hprevi : prevIndex =
      (if fromMsg.role = Role.user then fromIndex else fromIndex - 1))
    (hgetp : c.messages[prevIndex]? = some prevMsg) :
    (∀ c' am, reprompt env c fromId newPrompt os = Except.ok (c', am) →
      c'.messages =
        (editedHistory c.messages prevIndex prevMsg
          (effectiveEdit newPrompt)).take (prevIndex + 1) ++ [am] ∧
      am.role = Role.assistant ∧
      c'.events = c.events ++
        ((editedHistory c.messages prevIndex prevMsg
          (effectiveEdit newPrompt)).drop (prevIndex + 1)).map
          (fun m => Event.removed m.id) ++
        [Event.added am.id]) ∧
    (∀ e c', reprompt env c fromId newPrompt os = Except.error (e, c') →
      c'.messages =
        (editedHistory c.messages prevIndex prevMsg
          (effectiveEdit newPrompt)).take prevIndex ∧
      c'.events = c.events ++
        ((editedHistory c.messages prevIndex prevMsg
          (effectiveEdit newPrompt)).drop (prevIndex + 1)).map
          (fun m => Event.removed m.id) ++
        [Event.removed prevMsg.id]) :=
  repromptCore_spec env c fromId (effectiveEdit newPrompt) os fromIndex
    fromMsg prevMsg prevIndex hnd hidx hget hguard hprevi hgetp

theorem claim5_reprompt_branch_w :
    (Conversation.mk cfgDry
      [Message.mk 1 Role.user "A2", Message.mk 5 Role.assistant "A2"]
      10 10 6 []
      [Event.added 0, Event.added 1, Event.added 2, Event.added 3,
       Event.added 4, Event.removed 2, Event.removed 3, Event.removed 4,
       Event.added 5]).messages =
      (editedHistory convB.messages 0 (Message.mk 1 Role.user "A")
        (effectiveEdit (some "A2"))).take 1 ++
        [Message.mk 5 Role.assistant "A2"] ∧
    (Message.mk 5 Role.assistant "A2").role = Role.assistant ∧
    (Conversation.mk cfgDry
      [Message.mk 1 Role.user "A2", Message.mk 5 Role.assistant "A2"]
      10 10 6 []
      [Event.added 0, Event.added 1, Event.added 2, Event.added 3,
       Event.added 4, Event.removed 2, Event.removed 3, Event.removed 4,
       Event.added 5]).events =
      convB.events ++
        ((editedHistory convB.messages 0 (Message.mk 1 Role.user "A")
          (effectiveEdit (some "A2"))).drop 1).map
          (fun m => Event.removed m.id) ++
        [Event.added (Message.mk 5 Role.assistant "A2").id] :=
  (claim5_reprompt_branch envL convB 1 (some "A2") none 0
      (Message.mk 1 Role.user "A") (Message.mk 1 Role.user "A") 0
      (by decide) (by decide) (by decide) (by decide) (by decide)
      (by decide)).1
    (Conversation.mk cfgDry
      [Message.mk 1 Role.user "A2", Message.mk 5 Role.assistant "A2"]
      10 10 6 []
      [Event.added 0, Event.added 1, Event.added 2, Event.added 3,
       Event.added 4, Event.removed 2, Event.removed 3, Event.removed 4,
       Event.added 5])
    (Message.mk 5 Role.assistant "A2") (by rfl)

/-- Setting one position to an element with the same image keeps the
mapped list. -/
theorem map_set_congr {α β : Type} (l : List α) (i : Nat) (x y : α)
    (f : α → β) (hget : l[i]? = some x) (hf : f y = f x) :
    (l.set i y).map f = l.map f := by
  induction l generalizing i with
  | nil => simp at hget
  | cons a t ih =>
    cases i with
    | zero =>
      simp only [List.getElem?_cons_zero, Option.some.injEq] at hget
      subst hget
      simp [hf]
    | succ n =>
      simp only [List.getElem?_cons_succ] at hget
      simp [ih n hget]

/-- `sysTailFree` only depends on the role sequence. -/
theorem sysTailFree_of_roles_eq (l l2 : List Message)
    (h : l.map Message.role = l2.map Message.role)
    (hs : sysTailFree l) : sysTailFree l2 := by
  intro m hm
  have hmem : m.role ∈ (l2.map Message.role).tail := by
    have ht : (l2.map Message.role).tail = l2.tail.map Message.role := by
      cases l2 <;> simp
    rw [ht]
    exact List.mem_map_of_mem Message.role hm
  rw [← h] at hmem
  have ht : (l.map Message.role).tail = l.tail.map Message.role := by
    cases l <;> simp
  rw [ht] at hmem
  obtain ⟨m0, hm0, hrole⟩ := List.mem_map.mp hmem
  rw [← hrole]
  exact hs m0 hm0

/-- Appending a non-system message preserves `sysTailFree`. -/
theorem sysTailFree_append (l : List Message) (m : Message)
    (hs : sysTailFree l) (hm : m.role ≠ Role.system) :
    sysTailFree (l ++ [m]) := by
  cases l with
  | nil =>
    intro x hx
    simp at hx
  | cons a t =>
    intro x hx
    simp only [List.cons_append, List.tail_cons, List.mem_append,
      List.mem_singleton] at hx
    rcases hx with hx | hx
    · exact hs x (by simpa using hx)
    · subst hx
      exact hm

/-- A list whose members are all non-system is `sysTailFree`. -/
theorem sysTailFree_of_all (l : List Message)
    (h : ∀ x ∈ l, x.role ≠ Role.system) : sysTailFree l := by
  intro m hm
  exact h m (List.mem_of_mem_tail hm)

/-- Filtering preserves `sysTailFree`. -/
theorem sysTailFree_filter (l : List Message) (p : Message → Bool)
    (hs : sysTailFree l) : sysTailFree (l.filter p) := by
  cases l with
  | nil => intro x hx; simp at hx
  | cons a t =>
    have ht : ∀ x ∈ t.filter p, x.role ≠ Role.system := by
      intro x hx
      exact hs x (List.mem_of_mem_filter hx)
    rw [List.filter_cons]
    split_ifs with hp
    · intro x hx
      exact ht x (by simpa using hx)
    · exact sysTailFree_of_all _ ht

/-- After dropping a system head every member is non-system. -/
theorem dropSysHead_all (l : List Message) (hs : sysTailFree l) :
    ∀ x ∈ dropSysHead l, x.role ≠ Role.system := by
  cases l with
  | nil => intro x hx; simp [dropSysHead] at hx
  | cons a t =>
    intro x hx
    simp only [dropSysHead] at hx
    split_ifs at hx with ha
    · exact hs x hx
    · rcases List.mem_cons.mp hx with hx | hx
      · subst hx
        exact ha
      · exact hs x hx

/-- The history left by a successful system admission is `sysTailFree`
and its head is system exactly when the admitted trimmed content is
non-empty. -/
theorem system_shape_ok (l : List Message) (m' : Message) (s : String)
    (hs : sysTailFree l) (hm : m'.role = Role.system) :
    sysTailFree ((if s = "" then [] else [m']) ++ dropSysHead l) ∧
    (((if s = "" then [] else [m']) ++
        dropSysHead l).head?.map Message.role = some Role.system ↔
      s ≠ "") := by
  have hall := dropSysHead_all l hs
  split_ifs with he
  · refine ⟨by simpa using sysTailFree_of_all _ hall, ?_⟩
    simp only [List.nil_append, ne_eq, he, not_true_eq_false, iff_false]
    cases hd : (dropSysHead l).head? with
    | none => simp
    | some x =>
      have : x ∈ dropSysHead l := by
        cases hl : dropSysHead l with
        | nil => rw [hl] at hd; cases hd
        | cons y ys =>
          rw [hl] at hd
          simp only [List.head?_cons, Option.some.injEq] at hd
          subst hd
          simp [hl]
      simp only [Option.map_some', Option.some.injEq]
      exact hall x this
  · constructor
    · intro x hx
      simp only [List.cons_append, List.tail_cons] at hx
      exact hall x hx
    · simp [hm, he]

/-- The only error a non-user, non-strict-moderation admission can hit
is the role-adjacency guard, which exists only for non-system roles. -/
theorem addMessageE_error_cases (env : Env) (c : Conversation)
    (m : Message) (e : ConvError)
    (h : addMessageE env c m = Except.error e) :
    (m.role = Role.user ∧ trimString m.content = "") ∨
    c.config.moderation = ModerationPolicy.strict ∨
    m.role ≠ Role.system := by
  simp only [addMessageE] at h
  split_ifs at h with h1 h2 h3
  · exact Or.inl ⟨h1.2, h1.1⟩
  · exact Or.inr (Or.inl h2.2.1)
  all_goals first
    | exact Or.inr (Or.inr (by simpa using h3))
    | ((split at h) <;> (try split_ifs at h) <;> (try simp at h)) <;>
        exact Or.inr (Or.inr (by simpa using h3))

/-- `dropSysHead` only keeps original members. -/
theorem dropSysHead_subset (l : List Message) :
    ∀ x ∈ dropSysHead l, x ∈ l := by
  cases l with
  | nil => intro x hx; simp [dropSysHead] at hx
  | cons a t =>
    intro x hx
    simp only [dropSysHead] at hx
    split_ifs at hx with ha
    · exact List.mem_cons_of_mem a hx
    · exact hx

/-- Appending a non-system message preserves the head/context iff. -/
theorem ctxIffL_append (l : List Message) (ctx : String) (m : Message)
    (hIff : ctxIffL l ctx) (hm : m.role ≠ Role.system) :
    ctxIffL (l ++ [m]) ctx := by
  cases l with
  | nil =>
    unfold ctxIffL at *
    simp only [List.head?_nil, Option.map_none'] at hIff
    have hctx : ctx = "" := by
      by_contra hc
      exact (by simpa [hc] using hIff : False)
    simp [hctx, hm]
  | cons a t =>
    exact hIff

/-- Any successful admission preserves spec invariant 1. -/
theorem addMessageE_sysTailFree (env : Env) (c : Conversation)
    (m : Message) (c' : Conversation) (m' : Message)
    (hs : sysTailFree c.messages)
    (h : addMessageE env c m = Except.ok (c', m')) :
    sysTailFree c'.messages := by
  by_cases hr : m.role = Role.system
  · obtain ⟨hm', hmsgs, _⟩ := addMessageE_ok_system env c m c' m' hr h
    rw [hmsgs]
    exact (system_shape_ok c.messages m' (trimString m.content) hs
      (by rw [hm']; simpa using hr)).1
  · obtain ⟨hm', hmsgs, _⟩ := addMessageE_ok_nonsystem env c m c' m' hr h
    rw [hmsgs]
    exact sysTailFree_append _ _ hs (by rw [hm']; simpa using hr)

/-- `setContext` preserves spec invariant 1. -/
theorem setContext_sysTailFree (env : Env) (c : Conversation)
    (ctx : String) (hs : sysTailFree c.messages) :
    sysTailFree (setContext env c ctx).messages := by
  simp only [setContext, newMessage]
  split
  · rename_i r h
    exact addMessageE_sysTailFree env { c with nextId := c.nextId + 1 }
      ⟨c.nextId, Role.system, ctx⟩ r.1 r.2 hs h
  · exact hs

/-- `clearMessages` always re-establishes spec invariant 1. -/
theorem clearMessages_sysTailFree (env : Env) (c : Conversation) :
    sysTailFree (clearMessages env c).messages := by
  unfold clearMessages
  apply setContext_sysTailFree
  intro x hx
  simp at hx

/-- Batch removal preserves spec invariant 1. -/
theorem foldRemove_sysTailFree (l : List Message) (c : Conversation)
    (hs : sysTailFree c.messages) :
    sysTailFree
      ((l.foldl (fun acc m => removeMessage acc m.id) c)).messages := by
  induction l generalizing c with
  | nil => exact hs
  | cons a t ih =>
    simp only [List.foldl_cons]
    apply ih
    rw [removeMessage_messages]
    exact sysTailFree_filter _ _ hs

/-- Stream finalization preserves the role and id sequences, the
config and the fresh-id source. -/
theorem fireStreamingStop_roles (env : Env) (c : Conversation)
    (id : Nat) (content : String) :
    (fireStreamingStop env c id content).messages.map Message.role =
      c.messages.map Message.role ∧
    (fireStreamingStop env c id content).messages.map Message.id =
      c.messages.map Message.id ∧
    (fireStreamingStop env c id content).config = c.config ∧
    (fireStreamingStop env c id content).nextId = c.nextId := by
  unfold fireStreamingStop
  split_ifs with hp
  · refine ⟨?_, ?_, rfl, rfl⟩
    · simp only [List.map_map]
      apply List.map_congr_left
      intro a _
      by_cases hid : a.id == id <;> simp [Function.comp, hid]
    · simp only [List.map_map]
      apply List.map_congr_left
      intro a _
      by_cases hid : a.id == id <;> simp [Function.comp, hid]
  · exact ⟨rfl, rfl, rfl, rfl⟩

/-- Both result states of `reprompt` satisfy spec invariant 1. -/
theorem repromptCore_sysTailFree (env : Env) (c : Conversation)
    (fromId : Nat) (edit : Option String) (os : Option Bool)
    (hs : sysTailFree c.messages) :
    (∀ c' am, repromptCore env c fromId edit os = Except.ok (c', am) →
      sysTailFree c'.messages) ∧
    (∀ e c', repromptCore env c fromId edit os = Except.error (e, c') →
      sysTailFree c'.messages) := by
  have hmain : ∀ prevIndex (prevMsg : Message),
      c.messages[prevIndex]? = some prevMsg →
      sysTailFree (editedHistory c.messages prevIndex prevMsg edit) := by
    intro prevIndex prevMsg hgetp
    cases edit with
    | none => exact hs
    | some np =>
      apply sysTailFree_of_roles_eq c.messages _ _ hs
      show List.map Message.role c.messages = List.map Message.role
        (c.messages.set prevIndex { prevMsg with content := np })
      exact (map_set_congr c.messages prevIndex prevMsg
        { prevMsg with content := np } Message.role hgetp rfl).symm
  constructor
  · intro c' am h
    simp only [repromptCore] at h
    split at h
    · simp at h
    rename_i fromIndex hidx
    split at h
    · simp at h
    rename_i fromMsg hfget
    split_ifs at h with hg
    all_goals (
      split at h
      · simp at h
      rename_i prevMsg hgetp
      split at h
      · rename_i r hgar
        have hok : r = (c', am) := by simpa using h
        subst hok
        obtain ⟨g1, g2, _⟩ := getAssistantResponse_ok env _ os c' am hgar
        rw [g1]
        apply sysTailFree_append
        · exact foldRemove_sysTailFree _ _ (hmain _ prevMsg hgetp)
        · rw [g2]
          simp
      · simp at h)
  · intro e c' h
    simp only [repromptCore] at h
    split at h
    · cases h
      exact hs
    rename_i fromIndex hidx
    split at h
    · cases h
      exact hs
    rename_i fromMsg hfget
    split_ifs at h with hg
    · cases h
      exact hs
    all_goals (
      split at h
      · cases h
        exact hs
      rename_i prevMsg hgetp
      split at h
      · simp at h
      · rename_i e2 c3 hgar
        have hc : removeMessage c3 prevMsg.id = c' := by
          exact (by simpa using h :
            e2 = e ∧ removeMessage c3 prevMsg.id = c').2
        obtain ⟨g1, _⟩ := getAssistantResponse_error env _ os e2 c3 hgar
        rw [← hc, removeMessage_messages]
        apply sysTailFree_filter
        rw [g1]
        exact foldRemove_sysTailFree _ _ (hmain _ prevMsg hgetp))

/-- `setConfig` preserves spec invariant 1. -/
theorem setConfig_sysTailFree (env : Env) (c : Conversation)
    (p : ConfigPatch) (merge : Bool) (hs : sysTailFree c.messages) :
    sysTailFree (setConfig env c p merge).messages := by
  simp only [setConfig]
  split
  · rename_i np hctx
    split_ifs with hc
    all_goals first
      | exact setContext_sysTailFree env _ np hs
      | exact hs
  · exact hs

/-- Spec invariant 1 (at most one system message, and only at index 0)
is preserved by every public operation. -/
theorem applyOp_sysTailFree (env : Env) (c : Conversation) (op : Op)
    (hs : sysTailFree c.messages) :
    sysTailFree (applyOp env c op).messages := by
  cases op with
  | addUser s =>
    simp only [applyOp]
    split
    · rename_i r h
      exact addMessageE_sysTailFree env { c with nextId := c.nextId + 1 }
        ⟨c.nextId, Role.user, s⟩ r.1 r.2 hs h
    · exact hs
  | addAssistant s =>
    simp only [applyOp]
    split
    · rename_i r h
      exact addMessageE_sysTailFree env { c with nextId := c.nextId + 1 }
        ⟨c.nextId, Role.assistant, s⟩ r.1 r.2 hs h
    · exact hs
  | setCtx s => exact setContext_sysTailFree env c s hs
  | removeMsg id =>
    simp only [applyOp]
    rw [removeMessage_messages]
    exact sysTailFree_filter _ _ hs
  | clearAll => exact clearMessages_sysTailFree env c
  | promptOp s os =>
    cases hp : prompt env c s os with
    | ok r =>
      obtain ⟨c', am⟩ := r
      have hgoal : applyOp env c (Op.promptOp s os) = c' := by
        simp [applyOp, hp]
      rw [hgoal]
      simp only [prompt] at hp
      split at hp
      · simp at hp
      · rename_i c1 um hadd
        have hc1 : sysTailFree c1.messages :=
          addMessageE_sysTailFree env { c with nextId := c.nextId + 1 }
            ⟨c.nextId, Role.user, s⟩ c1 um hs hadd
        split at hp
        · rename_i r2 hgar
          have hok : r2 = (c', am) := by simpa using hp
          subst hok
          obtain ⟨g1, g2, _⟩ :=
            getAssistantResponse_ok env c1 os c' am hgar
          rw [g1]
          exact sysTailFree_append _ _ hc1 (by rw [g2]; simp)
        · simp at hp
    | error e =>
      obtain ⟨e1, c2⟩ := e
      have hgoal : applyOp env c (Op.promptOp s os) = c2 := by
        simp [applyOp, hp]
      rw [hgoal]
      simp only [prompt] at hp
      split at hp
      · rename_i eu hea
        have hcc : c = c2 := by
          exact (by simpa using hp : eu = e1 ∧ c = c2).2
        rw [← hcc]
        exact hs
      · rename_i c1 um hadd
        have hc1 : sysTailFree c1.messages :=
          addMessageE_sysTailFree env { c with nextId := c.nextId + 1 }
            ⟨c.nextId, Role.user, s⟩ c1 um hs hadd
        split at hp
        · simp at hp
        · rename_i e2 c3 hgar
          have hc2 : removeMessage c3 um.id = c2 := by
            exact (by simpa using hp :
              e2 = e1 ∧ removeMessage c3 um.id = c2).2
          obtain ⟨g1, _⟩ :=
            getAssistantResponse_error env c1 os e2 c3 hgar
          rw [← hc2, removeMessage_messages]
          apply sysTailFree_filter
          rw [g1]
          exact hc1
  | repromptOp id np os =>
    simp only [applyOp]
    split
    · rename_i r h
      exact (repromptCore_sysTailFree env c id (effectiveEdit np) os
        hs).1 r.1 r.2 h
    · rename_i e h
      exact (repromptCore_sysTailFree env c id (effectiveEdit np) os
        hs).2 e.1 e.2 h
  | setConfigOp p merge => exact setConfig_sysTailFree env c p merge hs
  | streamStop id content =>
    simp only [applyOp]
    exact sysTailFree_of_roles_eq _ _
      (fireStreamingStop_roles env c id content).1.symm hs

/-- Fresh ids transfer along an id-sequence equality. -/
theorem idsFresh_of_map_eq (l l2 : List Message) (n : Nat)
    (h : l.map Message.id = l2.map Message.id)
    (hf : ∀ m ∈ l, m.id < n) : ∀ m ∈ l2, m.id < n := by
  intro m hm
  have hmem : m.id ∈ l2.map Message.id :=
    List.mem_map_of_mem Message.id hm
  rw [← h] at hmem
  obtain ⟨m0, hm0, hid⟩ := List.mem_map.mp hmem
  rw [← hid]
  exact hf m0 hm0

/-- The head/context iff transfers along a role-sequence equality. -/
theorem ctxIffL_of_roles_eq (l l2 : List Message) (ctx : String)
    (h : l.map Message.role = l2.map Message.role)
    (hIff : ctxIffL l ctx) : ctxIffL l2 ctx := by
  unfold ctxIffL at *
  have h1 : l2.head?.map Message.role = l.head?.map Message.role := by
    rw [← List.head?_map, ← List.head?_map, h]
  rw [h1]
  exact hIff

/-- Admitting a fresh non-system message preserves the invariant
bundle. -/
theorem ConvInv_add_nonsystem (env : Env) (c : Conversation)
    (m : Message) (r : Conversation × Message)
    (hr : m.role ≠ Role.system) (hid : m.id = c.nextId)
    (hinv : ConvInv c)
    (h : addMessageE env { c with nextId := c.nextId + 1 } m =
      Except.ok r) :
    ConvInv r.1 := by
  obtain ⟨hs, hIff, hmod, hf⟩ := hinv
  obtain ⟨hm', hmsgs, hcfg, _, _, hnext, _, _, _⟩ :=
    addMessageE_ok_nonsystem env { c with nextId := c.nextId + 1 } m
      r.1 r.2 hr h
  have hrole2 : r.2.role ≠ Role.system := by
    rw [hm']
    simpa using hr
  refine ⟨?_, ?_, ?_, ?_⟩
  · rw [hmsgs]
    exact sysTailFree_append _ _ hs hrole2
  · rw [hmsgs, hcfg]
    exact ctxIffL_append _ _ _ hIff hrole2
  · rw [hcfg]
    exact hmod
  · intro x hx
    rw [hmsgs] at hx
    rw [hnext]
    simp only [List.mem_append, List.mem_singleton] at hx
    rcases hx with hx | hx
    · have := hf x hx
      simp only
      omega
    · subst hx
      rw [hm']
      simp only
      omega

/-- With a non-strict moderation policy, `setContext` cannot fail and
re-establishes the full invariant bundle (in particular the
head/context iff) regardless of whether it held before. -/
theorem ConvInv_setContext (env : Env) (c : Conversation)
    (ctx : String) (hs : sysTailFree c.messages)
    (hmod : c.config.moderation ≠ ModerationPolicy.strict)
    (hf : idsFresh c) :
    ConvInv (setContext env c ctx) := by
  simp only [setContext, newMessage]
  split
  · rename_i r h
    obtain ⟨hm', hmsgs, hctx, hcmod, _, _, _, _, hnext, _, _⟩ :=
      addMessageE_ok_system env { c with nextId := c.nextId + 1 }
        ⟨c.nextId, Role.system, ctx⟩ r.1 r.2 rfl h
    obtain ⟨hshape, hiff⟩ := system_shape_ok c.messages r.2
      (trimString ctx) hs (by rw [hm'])
    refine ⟨?_, ?_, ?_, ?_⟩
    · rw [hmsgs]
      exact hshape
    · unfold ctxIffL
      rw [hmsgs, hctx]
      exact hiff
    · rw [hcmod]
      exact hmod
    · intro x hx
      rw [hmsgs] at hx
      rw [hnext]
      simp only [List.mem_append] at hx
      rcases hx with hx | hx
      · have hxm : x = r.2 := by
          by_cases he : trimString ctx = ""
          · simp [he] at hx
          · simp [he] at hx
            exact hx
        subst hxm
        rw [hm']
        simp only
        omega
      · have := hf x (dropSysHead_subset c.messages x hx)
        simp only
        omega
  · rename_i e h
    exfalso
    rcases addMessageE_error_cases env _ _ e h with h1 | h2 | h3
    · exact absurd h1.1 (by simp)
    · exact hmod (by simpa using h2)
    · exact h3 (by simp)

/-- With a non-strict moderation policy, `clearMessages` establishes
the invariant bundle from any state. -/
theorem ConvInv_clearMessages (env : Env) (c : Conversation)
    (hmod : c.config.moderation ≠ ModerationPolicy.strict) :
    ConvInv (clearMessages env c) := by
  unfold clearMessages
  apply ConvInv_setContext
  · intro x hx
    simp at hx
  · exact hmod
  · intro x hx
    simp at hx

/-- With a non-strict moderation policy, a fresh conversation satisfies
the invariant bundle. -/
theorem ConvInv_create (env : Env) (cfg : Config)
    (hmod : cfg.moderation ≠ ModerationPolicy.strict) :
    ConvInv (Conversation.create env cfg) := by
  unfold Conversation.create
  exact ConvInv_clearMessages env _ hmod

/-- A successful response turn preserves the invariant bundle. -/
theorem ConvInv_gar_ok (env : Env) (c : Conversation) (os : Option Bool)
    (c' : Conversation) (am : Message) (hinv : ConvInv c)
    (h : getAssistantResponse env c os = Except.ok (c', am)) :
    ConvInv c' := by
  obtain ⟨hs, hIff, hmod, hf⟩ := hinv
  obtain ⟨g1, g2, g3, g4, g5, _, _, _, _⟩ :=
    getAssistantResponse_ok env c os c' am h
  have hrole : am.role ≠ Role.system := by
    rw [g2]
    simp
  refine ⟨?_, ?_, ?_, ?_⟩
  · rw [g1]
    exact sysTailFree_append _ _ hs hrole
  · rw [g1, g4]
    exact ctxIffL_append _ _ _ hIff hrole
  · rw [g4]
    exact hmod
  · intro x hx
    rw [g1] at hx
    rw [g5]
    simp only [List.mem_append, List.mem_singleton] at hx
    rcases hx with hx | hx
    · have := hf x hx
      omega
    · subst hx
      omega

/-- The rolled-back state of a failed `prompt` has exactly the original
history (the fresh user message is filtered back out). -/
theorem prompt_error_state (env : Env) (c : Conversation) (s : String)
    (os : Option Bool) (e : ConvError) (c2 : Conversation)
    (hf : idsFresh c)
    (h : prompt env c s os = Except.error (e, c2)) :
    (c2.messages = c.messages ∧ c2.config = c.config ∧
      c2.nextId = c.nextId) ∨
    (c2.messages = c.messages ∧ c2.config = c.config ∧
      c2.nextId = c.nextId + 2) := by
  simp only [prompt] at h
  split at h
  · rename_i eu hea
    have hcc : eu = e ∧ c = c2 := by simpa using h
    rw [← hcc.2]
    exact Or.inl ⟨rfl, rfl, rfl⟩
  · rename_i c1 um hadd
    obtain ⟨hm', hmsgs, hcfg, _, _, hnext, _, _, _⟩ :=
      addMessageE_ok_nonsystem env { c with nextId := c.nextId + 1 }
        ⟨c.nextId, Role.user, s⟩ c1 um (by simp) hadd
    split at h
    · simp at h
    · rename_i e2 c3 hgar
      have hcc : e2 = e ∧ removeMessage c3 um.id = c2 := by
        simpa using h
      obtain ⟨g1, g2, g3, _, _, _, _⟩ :=
        getAssistantResponse_error env c1 os e2 c3 hgar
      obtain ⟨r1, _, _, r4, _⟩ := removeMessage_fields c3 um.id
      refine Or.inr ⟨?_, ?_, ?_⟩
      · rw [← hcc.2, removeMessage_messages, g1, hmsgs]
        simp only [List.filter_append]
        have h1 : c.messages.filter (fun m => m.id != um.id) =
            c.messages := by
          apply List.filter_eq_self.mpr
          intro a ha
          have h2 := hf a ha
          have h3 : um.id = c.nextId := by rw [hm']
          simp only [ne_eq, bne_iff_ne]
          omega
        have h2 : List.filter (fun m => m.id != um.id) [um] = [] := by
          simp
        rw [show ({ c with nextId := c.nextId + 1} :
          Conversation).messages = c.messages from rfl] at h1 ⊢
        rw [h1, h2, List.append_nil]
      · rw [← hcc.2, r1, g2, hcfg]
      · rw [← hcc.2, r4, g3, hnext]

/-- Every removal-free public operation preserves the invariant
bundle. -/
theorem ConvInv_applyOp (env : Env) (c : Conversation) (op : Op)
    (hinv : ConvInv c) (hrf : removalFree op = true) :
    ConvInv (applyOp env c op) := by
  cases op with
  | addUser s =>
    simp only [applyOp]
    split
    · rename_i r h
      exact ConvInv_add_nonsystem env c ⟨c.nextId, Role.user, s⟩ r
        (by simp) rfl hinv h
    · exact hinv
  | addAssistant s =>
    simp only [applyOp]
    split
    · rename_i r h
      exact ConvInv_add_nonsystem env c ⟨c.nextId, Role.assistant, s⟩ r
        (by simp) rfl hinv h
    · exact hinv
  | setCtx s =>
    exact ConvInv_setContext env c s hinv.1 hinv.2.2.1 hinv.2.2.2
  | removeMsg id => simp [removalFree] at hrf
  | clearAll => exact ConvInv_clearMessages env c hinv.2.2.1
  | promptOp s os =>
    cases hp : prompt env c s os with
    | ok r =>
      obtain ⟨c', am⟩ := r
      have hgoal : applyOp env c (Op.promptOp s os) = c' := by
        simp [applyOp, hp]
      rw [hgoal]
      simp only [prompt] at hp
      split at hp
      · simp at hp
      · rename_i c1 um hadd
        have hinv1 : ConvInv c1 :=
          ConvInv_add_nonsystem env c ⟨c.nextId, Role.user, s⟩ (c1, um)
            (by simp) rfl hinv hadd
        split at hp
        · rename_i r2 hgar
          have hok : r2 = (c', am) := by simpa using hp
          subst hok
          exact ConvInv_gar_ok env c1 os c' am hinv1 hgar
        · simp at hp
    | error e =>
      obtain ⟨e1, c2⟩ := e
      have hgoal : applyOp env c (Op.promptOp s os) = c2 := by
        simp [applyOp, hp]
      rw [hgoal]
      obtain ⟨hs, hIff, hmod, hf⟩ := hinv
      rcases prompt_error_state env c s os e1 c2 hf hp with
        ⟨p1, p2, p3⟩ | ⟨p1, p2, p3⟩
      · refine ⟨?_, ?_, ?_, ?_⟩
        · rw [p1]; exact hs
        · unfold ctxIffL
          rw [p1, p2]
          exact hIff
        · rw [p2]; exact hmod
        · intro x hx
          rw [p1] at hx
          rw [p3]
          exact hf x hx
      · refine ⟨?_, ?_, ?_, ?_⟩
        · rw [p1]; exact hs
        · unfold ctxIffL
          rw [p1, p2]
          exact hIff
        · rw [p2]; exact hmod
        · intro x hx
          rw [p1] at hx
          rw [p3]
          have := hf x hx
          omega
  | repromptOp id np os => simp [removalFree] at hrf
  | setConfigOp p merge => simp [removalFree] at hrf
  | streamStop id content =>
    obtain ⟨hs, hIff, hmod, hf⟩ := hinv
    obtain ⟨q1, q2, q3, q4⟩ := fireStreamingStop_roles env c id content
    refine ⟨?_, ?_, ?_, ?_⟩
    · exact sysTailFree_of_roles_eq _ _ q1.symm hs
    · unfold ctxIffL
      show (fireStreamingStop env c id content).messages.head?.map
        Message.role = some Role.system ↔
        (fireStreamingStop env c id content).config.context ≠ ""
      rw [q3]
      exact ctxIffL_of_roles_eq _ _ _ q1.symm hIff
    · show (fireStreamingStop env c id content).config.moderation ≠ _
      rw [q3]
      exact hmod
    · intro x hx
      show x.id < (fireStreamingStop env c id content).nextId
      rw [q4]
      exact idsFresh_of_map_eq _ _ _ q2.symm hf x hx

/-- C3 counterexample: removing the system message by id leaves a
non-empty effective context with no system head, breaking the claimed
iff after a public operation. -/
theorem claim3_counterexample :
    ¬ ((removeMessage convA 0).messages.head?.map Message.role =
        some Role.system ↔
      (removeMessage convA 0).config.context ≠ "") := by
  decide

/-- C3 (amended): after every public-operation trace from a fresh
conversation at most one system-role message exists and it can only
sit at index 0; and along traces of operations that neither remove
messages nor replace the config (with a non-strict moderation policy)
`messages[0]` is a system message if and only if the effective context
is non-empty.  `removeMessage` of the system message itself can break
the iff, as the counterexample shows. -/
theorem claim3_system_head (env : Env) (cfg : Config) (ops : List Op) :
    sysTailFree (runTrace env (Conversation.create env cfg) ops).messages ∧
    (cfg.moderation ≠ ModerationPolicy.strict →
      (∀ op ∈ ops, removalFree op = true) →
      ctxHeadIff (runTrace env (Conversation.create env cfg) ops)) := by
  constructor
  · have h0 : sysTailFree (Conversation.create env cfg).messages := by
      rcases create_messages_short env cfg with he | ⟨mm, he⟩ <;>
        rw [he] <;> intro x hx <;> simp at hx
    clear h0
    have hgen : ∀ (c : Conversation), sysTailFree c.messages →
        sysTailFree (runTrace env c ops).messages := by
      induction ops with
      | nil => intro c hc; exact hc
      | cons op rest ih =>
        intro c hc
        exact ih _ (applyOp_sysTailFree env c op hc)
    apply hgen
    rcases create_messages_short env cfg with he | ⟨mm, he⟩ <;>
      rw [he] <;> intro x hx <;> simp at hx
  · have hgen : ∀ (ops2 : List Op) (c : Conversation), ConvInv c →
        (∀ op ∈ ops2, removalFree op = true) →
        ConvInv (runTrace env c ops2) := by
      intro ops2
      induction ops2 with
      | nil => intro c hc _; exact hc
      | cons op rest ih =>
        intro c hc hall
        exact ih _
          (ConvInv_applyOp env c op hc (hall op (List.mem_cons_self op rest)))
          (fun o ho => hall o (List.mem_cons_of_mem op ho))
    intro hmod hrf
    exact (hgen ops _ (ConvInv_create env cfg hmod) hrf).2.1

theorem claim3_system_head_w :
    sysTailFree (runTrace envL (Conversation.create envL cfgTerse)
      [Op.promptOp "Hi" none]).messages ∧
    ctxHeadIff (runTrace envL (Conversation.create envL cfgTerse)
      [Op.promptOp "Hi" none]) := by
  obtain ⟨h1, h2⟩ :=
    claim3_system_head envL cfgTerse [Op.promptOp "Hi" none]
  exact ⟨h1, h2 (by decide) (by
    intro op hop
    simp only [List.mem_singleton] at hop
    subst hop
    rfl)⟩

/-- C4 counterexample: on the prompt streamed path the message IS already
admitted when the stop event fires, so `getSize()` at fire time already
includes the finalized message itself; the increment is the fire-time
size plus the message's own size, not the size before the message plus
its own size. Concretely, after a streamed dry `prompt("Hi")` the stop
handler for message 2 with content "Hello!" adds 14 (= 2 + 6 + 6), while
the claimed amount is 8 (= 2 + 6). -/
theorem claim4_counterexample :
    2 ∈ convS.pending ∧
    (Message.mk 2 Role.assistant "") ∈ convS.messages ∧
    (fireStreamingStop envL convS 2 "Hello!").cumulativeSize ≠
      convS.cumulativeSize +
        convSize envL { convS with
          messages := convS.messages.filter (fun m => m.id != 2) } +
        envL.sizeFn "Hello!" := by decide

/-- C4 (amended): when the streaming-stop event fires for a message with
a live one-shot subscription, the cumulative counters increase exactly
once, by the conversation's size/cost AT FIRE TIME — computed over the
history with the message's content finalized, hence counting the message
itself a second time whenever it was already admitted, as on the prompt
streamed path — plus the message's own finalized size/cost; the
subscription removes itself, so a second firing is a no-op; and only
when the message has not been admitted at fire time does the fire-time
size/cost coincide with the size/cost before the message. -/
theorem claim4_streaming_stop_fire_time (env : Env) (c : Conversation)
    (id : Nat) (content : String)
    (hpend : id ∈ c.pending) :
    (fireStreamingStop env c id content).cumulativeSize =
      c.cumulativeSize + convSize env (finalizeContent c id content) +
        env.sizeFn content ∧
    (fireStreamingStop env c id content).cumulativeCost =
      c.cumulativeCost + convCost env (finalizeContent c id content) +
        env.costFn Role.assistant content ∧
    id ∉ (fireStreamingStop env c id content).pending ∧
    (∀ content2,
      fireStreamingStop env (fireStreamingStop env c id content) id
          content2 = fireStreamingStop env c id content) ∧
    ((∀ m ∈ c.messages, m.id ≠ id) →
      convSize env (finalizeContent c id content) = convSize env c ∧
      convCost env (finalizeContent c id content) = convCost env c) := by
  unfold fireStreamingStop
  rw [if_pos hpend]
  refine ⟨rfl, rfl, ?_, ?_, ?_⟩
  · simp
  · intro content2
    rw [if_neg]
    simp
  · intro habs
    have hmsg : c.messages.map
        (fun (m : Message) =>
          if m.id == id then { m with content := content } else m) =
        c.messages := by
      apply map_fix_eq_self
      intro m hm
      simp [habs m hm]
    unfold finalizeContent
    rw [hmsg]
    exact ⟨rfl, rfl⟩

theorem claim4_streaming_stop_fire_time_w :
    (fireStreamingStop envL convS 2 "Hello!").cumulativeSize =
      convS.cumulativeSize + convSize envL (finalizeContent convS 2 "Hello!") +
        envL.sizeFn "Hello!" ∧
    (fireStreamingStop envL convS 2 "Hello!").cumulativeCost =
      convS.cumulativeCost + convCost envL (finalizeContent convS 2 "Hello!") +
        envL.costFn Role.assistant "Hello!" ∧
    2 ∉ (fireStreamingStop envL convS 2 "Hello!").pending ∧
    fireStreamingStop envL (fireStreamingStop envL convS 2 "Hello!") 2
        "again" = fireStreamingStop envL convS 2 "Hello!" := by
  obtain ⟨h1, h2, h3, h4, _⟩ :=
    claim4_streaming_stop_fire_time envL convS 2 "Hello!" (by decide)
  exact ⟨h1, h2, h3, h4 "again"⟩
